import Mathlib

/-!
The socket layer of picoos-net (`sock.c`).

A shallow embedding of the blocking socket layer of picoos-net and the
properties of its read, write, close and allocation paths.

Conventions of the embedding.

* Bytes, lengths and ports are natural numbers.  The C code only ever
  decreases `dataLeft` and keeps `len` below `max`, so no 16-bit wrap-around
  occurs on the paths modelled here.
* A pointer into application memory is a region together with an offset
  (`BufPtr`); the null pointer is `none`.
* The application task and the network thread hand the socket record to each
  other at every wait on a flag.  A wait is modelled by what the other side
  does to the record while the waiter is parked: a `Park` for the waits of the
  API calls, an `AppTurn` for the waits of the TCP and UDP callbacks.
* `P_ASSERT` failures are results of their own (`Res.assertFailed`, or the
  `halted` mark when the failing call is made from inside an `AppTurn`).
* The read, write and callback paths work on one socket record and are stated
  over `Cx`; allocation, configuration, close and accept work on the socket
  table and are stated over `World`, where a file handle is the slot of its
  record.
* The new-data loop of the TCP callback may not terminate; it runs on fuel and
  yields `none` when the fuel runs out.
-/

namespace PicoNet

/-! ## Data model -/

/-- Modelled from the spec: the state enumeration `NetSockState` of
`picoos-net.h` (the header is not part of the sources at hand). -/
inductive NetSockState
  | NULL | UNDEF_TCP | UNDEF_UDP | BOUND | BOUND_UDP | LISTENING | ACCEPTING
  | ACCEPTED | CONNECT | CONNECT_OK | BUSY | READING | READING_LINE | READ_OK
  | WRITING | WRITE_OK | CLOSE | CLOSE_OK | PEER_CLOSED | PEER_ABORTED
deriving DecidableEq, Repr

/-- A non-null `char*` into application memory: the region it points into and
the offset of the pointer inside the region. -/
structure BufPtr where
  mem : List Nat
  off : Nat
deriving DecidableEq, Repr

/-- Store `p[i] = v`. -/
def BufPtr.poke (p : BufPtr) (i v : Nat) : BufPtr :=
  { p with mem := p.mem.set (p.off + i) v }

/-- Load `p[i]`. -/
def BufPtr.peek (p : BufPtr) (i : Nat) : Nat :=
  p.mem.getD (p.off + i) 0

/-- Pointer arithmetic `p + n`. -/
def BufPtr.add (p : BufPtr) (n : Nat) : BufPtr :=
  { p with off := p.off + n }

/-- The `n` bytes `p[0] .. p[n-1]`. -/
def BufPtr.view (p : BufPtr) (n : Nat) : List Nat :=
  (p.mem.drop p.off).take n

/-- Store the bytes `bs` at `p[i]`, `p[i+1]`, ... in order. -/
def BufPtr.pokeList (p : BufPtr) : Nat → List Nat → BufPtr
  | _, [] => p
  | i, b :: bs => BufPtr.pokeList (p.poke i b) (i + 1) bs

/-- The call `memcpy(dst, src, n)` where `src` is the list of bytes readable
at the source pointer. A store through the null pointer is undefined in C; the
model leaves the pointer null. -/
def memcpy (dst : Option BufPtr) (src : List Nat) (n : Nat) : Option BufPtr :=
  dst.map (fun p => p.pokeList 0 (src.take n))

/-- Modelled from the spec: the socket record `NetSock` of `picoos-net.h`,
with the fields the source file uses. `mutex`, `sockChange` and `uipChange`
record whether the handle is non-null; `timeout = none` is `INFINITE`. -/
structure NetSock where
  state : NetSockState
  port : Nat
  buf : Option BufPtr
  len : Nat
  max : Nat
  timeout : Option Nat
  newConnection : Option Nat
  mutex : Bool
  sockChange : Bool
  uipChange : Bool
deriving DecidableEq, Repr

/-- Return sentinel `NET_SOCK_EOF`. -/
def NET_SOCK_EOF : Int := -1
/-- Return sentinel `NET_SOCK_TIMEOUT`. -/
def NET_SOCK_TIMEOUT : Int := -2
/-- Return sentinel `NET_SOCK_ABORT`. -/
def NET_SOCK_ABORT : Int := -3

/-- The byte `'\r'`. -/
def CR : Nat := 13
/-- The byte `'\n'`. -/
def LF : Nat := 10

/-- One socket record together with everything outside the record that the
read, write and callback paths touch: the connection of the stack that belongs
to the socket (`uip_conn`), the effects requested from the stack, the
`dataToSend` latch and `uipGiant` semaphore, the number of `posFlagSet` calls
on the two flags, and the values the application task has been handed by
reads that completed inside an `AppTurn`. -/
structure Cx where
  sock : NetSock
  appfile : Bool
  sent : List (Option BufPtr × Nat)
  aborts : Nat
  closes : Nat
  udpRemoved : Nat
  udpSent : List (List Nat)
  dataToSend : Bool
  giant : Nat
  uipSignals : Nat
  sockSignals : Nat
  rets : List (Int × Option BufPtr)
  halted : Bool
deriving DecidableEq, Repr

/-- The outcome of a blocking API call on a state of type `σ`: it returned
`ret` leaving the state `s`, or a `P_ASSERT` failed, or the task stays parked
because nothing more happens. -/
inductive Res (σ : Type) (α : Type)
  | done (ret : α) (s : σ)
  | assertFailed
  | blocked
deriving DecidableEq, Repr

/-- One wait of the application task on `uipChange`: what the network thread
does to the state while the task is parked, and whether the flag was set
before the timeout ran out. -/
structure Park (σ : Type) where
  act : σ → σ
  signalled : Bool

/-- The loop `while (cond) { unlock; posFlagGet(uipChange); lock; }` of the
calls that wait without a timeout. -/
def waitWhile {σ : Type} (busy : σ → Bool) : List (Park σ) → σ → Option σ
  | [], s => if busy s then none else some s
  | p :: ps, s => if busy s then waitWhile busy ps (p.act s) else some s

/-! ## Reading: `sockReadInternal` -/

/-- The result of the entry section of a blocking call. -/
inductive Entry
  | ret (v : Int) (c : Cx)
  | parked (c : Cx)
  | assertFailed
deriving DecidableEq, Repr

/-- Lines 340-361 of `sockReadInternal`: the early returns, the state
assertion and the switch to the wait-state. -/
def sockReadEnter (c : Cx) (state : NetSockState) (data : Option BufPtr) (max : Nat) : Entry :=
  if c.sock.state = .PEER_CLOSED then .ret NET_SOCK_EOF c
  else if c.sock.state = .PEER_ABORTED then .ret NET_SOCK_ABORT c
  else if c.sock.state ≠ .BUSY then .assertFailed
  else
    .parked { c with
      sock := { c.sock with state := state, buf := data, max := max, len := 0 }
      sockSignals := c.sockSignals + 1 }

/-- Lines 363-368 of `sockReadInternal`: the loop
`while (sock->state == state && !timedOut)`. -/
def readWait (state : NetSockState) : List (Park Cx) → Cx → Bool → Option (Cx × Bool)
  | [], c, timedOut =>
    if c.sock.state = state ∧ timedOut = false then none else some (c, timedOut)
  | p :: ps, c, timedOut =>
    if c.sock.state = state ∧ timedOut = false then
      readWait state ps (p.act c) (!p.signalled)
    else some (c, timedOut)

/-- Lines 370-387 of `sockReadInternal`: the classification on wake. -/
def sockReadFinish (state : NetSockState) (timedOut : Bool) (c : Cx) : Res Cx Int :=
  if c.sock.state = .PEER_CLOSED then .done NET_SOCK_EOF c
  else if c.sock.state = .PEER_ABORTED then .done NET_SOCK_ABORT c
  else if (timedOut = true ∧ c.sock.state = state) ∨ c.sock.state = .READ_OK then
    let len : Int := if timedOut = true ∧ c.sock.state = state then NET_SOCK_TIMEOUT else (c.sock.len : Int)
    .done len { c with sock := { c.sock with state := .BUSY } }
  else .assertFailed

/-- The function `sockReadInternal`. -/
def sockReadInternal (c : Cx) (state : NetSockState) (data : Option BufPtr) (max : Nat)
    (parks : List (Park Cx)) : Res Cx Int :=
  match sockReadEnter c state data max with
  | .ret v c1 => .done v c1
  | .assertFailed => .assertFailed
  | .parked c1 =>
    match readWait state parks c1 false with
    | none => .blocked
    | some (c2, timedOut) => sockReadFinish state timedOut c2

/-- The function `netSockRead`. -/
def netSockRead (c : Cx) (data : Option BufPtr) (max : Nat) (parks : List (Park Cx)) : Res Cx Int :=
  sockReadInternal c .READING data max parks

/-- The function `netSockReadLine`. -/
def netSockReadLine (c : Cx) (data : Option BufPtr) (max : Nat) (parks : List (Park Cx)) : Res Cx Int :=
  sockReadInternal c .READING_LINE data max parks

/-! ## Writing: `sockWrite` -/

/-- Lines 428-449 of `sockWrite`. -/
def sockWriteEnter (c : Cx) (data : Option BufPtr) (len : Nat) : Entry :=
  if c.sock.state = .PEER_CLOSED then .ret NET_SOCK_EOF c
  else if c.sock.state = .PEER_ABORTED then .ret NET_SOCK_ABORT c
  else if c.sock.state ≠ .BUSY then .assertFailed
  else
    .parked { c with
      sock := { c.sock with state := .WRITING, buf := data, len := len }
      dataToSend := true
      giant := c.giant + 1 }

/-- Lines 458-471 of `sockWrite`: the classification on wake; `len` is the
length the caller passed. -/
def sockWriteFinish (len : Nat) (c : Cx) : Res Cx Int :=
  if c.sock.state = .PEER_CLOSED then .done NET_SOCK_EOF c
  else if c.sock.state = .PEER_ABORTED then .done NET_SOCK_ABORT c
  else if c.sock.state = .WRITE_OK then
    .done (len : Int) { c with sock := { c.sock with state := .BUSY } }
  else .assertFailed

/-- The function `sockWrite`, on the record `file->fsPriv`. -/
def sockWrite (c : Cx) (data : Option BufPtr) (len : Nat) (parks : List (Park Cx)) : Res Cx Int :=
  match sockWriteEnter c data len with
  | .ret v c1 => .done v c1
  | .assertFailed => .assertFailed
  | .parked c1 =>
    match waitWhile (fun x => decide (x.sock.state = .WRITING)) parks c1 with
    | none => .blocked
    | some c2 => sockWriteFinish len c2

/-! ## The TCP callback `netTcpAppcallMutex` -/

/-- The stack flags and payload of one invocation of the TCP callback:
`uip_aborted()`, `uip_timedout()`, `uip_acked()`, `uip_newdata()`,
`uip_rexmit()`, `uip_closed()`, `uip_poll()`, the bytes
`uip_appdata[0 .. uip_datalen())` and `uip_mss()`. -/
structure TcpEvent where
  aborted : Bool
  timedout : Bool
  acked : Bool
  newdata : Bool
  rexmit : Bool
  closed : Bool
  poll : Bool
  data : List Nat
  mss : Nat
deriving DecidableEq, Repr

/-- What the application task does during one wait of a callback on
`sockChange`: nothing; or the parked reader wakes on `READ_OK` and returns; or
it does so and calls `read` (`state = READING`) or `read_line`
(`state = READING_LINE`) again. -/
inductive AppTurn
  | idle
  | readReturn
  | read (state : NetSockState) (data : Option BufPtr) (max : Nat)
deriving DecidableEq, Repr

/-- A reader parked in `sockReadInternal` that finds `READ_OK` returns
`sock->len`; the value and the buffer it was handed are appended to `rets`. -/
def appReadReturn (c : Cx) : Cx :=
  if c.sock.state = .READ_OK then
    match sockReadFinish .READING false c with
    | .done r c1 => { c1 with rets := c1.rets ++ [(r, c.sock.buf)] }
    | _ => c
  else c

/-- The effect of one `AppTurn` on the record, and whether `sockChange` was
set during it (the callback wait then returns non-zero). -/
def appTurn : AppTurn → Cx → Cx × Bool
  | .idle, c => (c, false)
  | .readReturn, c => (appReadReturn c, false)
  | .read state data max, c =>
    let c1 := appReadReturn c
    match sockReadEnter c1 state data max with
    | .ret v c2 => ({ c2 with rets := c2.rets ++ [(v, data)] }, false)
    | .parked c2 => (c2, true)
    | .assertFailed => ({ c1 with halted := true }, false)

/-- The function `netAppcallClose`. -/
def netAppcallClose (c : Cx) (nextState : NetSockState) : Cx :=
  { c with
    appfile := false
    sock := { c.sock with state := nextState }
    uipSignals := c.uipSignals + 1 }

/-- Lines 671-688: the `uip_acked()` branch. -/
def tcpAcked (mss : Nat) (c : Cx) : Cx :=
  if c.sock.state = .WRITING then
    if c.sock.len ≤ mss then
      { c with
        sock := { c.sock with len := 0, state := .WRITE_OK }
        uipSignals := c.uipSignals + 1 }
    else
      let b := c.sock.buf.map (fun p => p.add mss)
      let l := c.sock.len - mss
      { c with
        sock := { c.sock with buf := b, len := l }
        sent := c.sent ++ [(b, l)] }
  else c

/-- Lines 698-705: the wait of the callback for a reader. When the script of
application turns is exhausted nothing sets `sockChange` and the wait times
out. Returns the rest of the script, the record and the `timeout` flag. -/
def waitReader : List AppTurn → Cx → Bool → List AppTurn × Cx × Bool
  | [], c, timeout =>
    if c.sock.state ≠ .READING ∧ c.sock.state ≠ .READING_LINE ∧ timeout = false then
      ([], c, true)
    else ([], c, timeout)
  | t :: ts, c, timeout =>
    if c.sock.state ≠ .READING ∧ c.sock.state ≠ .READING_LINE ∧ timeout = false then
      waitReader ts (appTurn t c).1 (!(appTurn t c).2)
    else (t :: ts, c, timeout)

/-- Lines 717-734: the loop `while (dataLeft && sock->len < sock->max)` of the
`READING_LINE` branch. The first argument is the bytes at `dataPtr`
(`dataLeft` is its length); the result is the bytes left and the record. -/
def lineLoop : List Nat → NetSock → List Nat × NetSock
  | [], s => ([], s)
  | ch :: rest, s =>
    if s.len < s.max then
      if ch = CR then lineLoop rest s
      else
        let s1 := { s with buf := s.buf.map (fun p => p.poke s.len ch), len := s.len + 1 }
        if ch = LF then (rest, s1) else lineLoop rest s1
    else (ch :: rest, s)

/-- Load `buf[i]` through the pointer of the record (0 when it is null). -/
def peekBuf (b : Option BufPtr) (i : Nat) : Nat :=
  match b with
  | none => 0
  | some p => p.peek i

/-- Lines 713-741: the `READING_LINE` branch of the new-data loop. -/
def tcpReadLine (data : List Nat) (c : Cx) : List Nat × Cx :=
  let r := lineLoop data c.sock
  let s := r.2
  if s.len ≠ 0 ∧ (s.len = s.max ∨ peekBuf s.buf (s.len - 1) = LF) then
    (r.1, { c with sock := { s with state := .READ_OK }, uipSignals := c.uipSignals + 1 })
  else (r.1, { c with sock := s })

/-- Lines 742-755: the `READING` branch of the new-data loop. -/
def tcpRead (data : List Nat) (c : Cx) : List Nat × Cx :=
  let n := if data.length > c.sock.max then c.sock.max else data.length
  (data.drop n,
   { c with
     sock := { c.sock with len := n, buf := memcpy c.sock.buf data n, state := .READ_OK }
     uipSignals := c.uipSignals + 1 })

/-- One pass of the outer loop (lines 698-755), entered with `dataLeft > 0`
and `timeout = false`: the rest of the script, the bytes left, the record and
the `timeout` flag after the pass. -/
def newdataPass (script : List AppTurn) (data : List Nat) (c : Cx) :
    List AppTurn × List Nat × Cx × Bool :=
  let w := waitReader script c false
  let c1 := w.2.1
  if w.2.2 = true then
    (w.1, data, netAppcallClose { c1 with aborts := c1.aborts + 1 } .PEER_ABORTED, true)
  else if c1.sock.state = .READING_LINE then
    (w.1, (tcpReadLine data c1).1, (tcpReadLine data c1).2, false)
  else if c1.sock.state = .READING then
    (w.1, (tcpRead data c1).1, (tcpRead data c1).2, false)
  else (w.1, data, c1, false)

/-- Lines 696-756: the loop `while (dataLeft > 0 && !timeout)`. The loop need
not terminate, so it runs on fuel: `none` means the fuel ran out. -/
def newdataLoop : Nat → List AppTurn → List Nat → Cx → Bool → Option Cx
  | fuel, script, data, c, timeout =>
    if 0 < data.length ∧ timeout = false then
      match fuel with
      | 0 => none
      | fuel + 1 =>
        let r := newdataPass script data c
        newdataLoop fuel r.1 r.2.1 r.2.2.1 r.2.2.2
    else some c

/-- Lines 769-780: the `uip_poll()` branch. -/
def tcpPoll (c : Cx) : Cx :=
  if c.sock.state = .CLOSE then
    netAppcallClose { c with closes := c.closes + 1 } .CLOSE_OK
  else if c.sock.state = .WRITING then
    { c with sent := c.sent ++ [(c.sock.buf, c.sock.len)] }
  else c

/-- The function `netTcpAppcallMutex`. -/
def netTcpAppcallMutex (fuel : Nat) (ev : TcpEvent) (script : List AppTurn) (c : Cx) : Option Cx :=
  let c1 := if ev.aborted then netAppcallClose c .PEER_ABORTED else c
  let c2 := if ev.timedout then netAppcallClose c1 .PEER_ABORTED else c1
  let c3 := if ev.acked then tcpAcked ev.mss c2 else c2
  match (if ev.newdata then newdataLoop fuel script ev.data c3 false else some c3) with
  | none => none
  | some c4 =>
    let c5 := if ev.rexmit then { c4 with sent := c4.sent ++ [(c4.sock.buf, c4.sock.len)] } else c4
    let c6 := if ev.closed then netAppcallClose c5 .PEER_CLOSED else c5
    some (if ev.poll then tcpPoll c6 else c6)

/-! ## What the claims compare the code with -/

/-- The bytes of `l` up to and including its first `'\n'` (all of `l` when it
has none). -/
def throughNewline : List Nat → List Nat
  | [] => []
  | b :: bs => if b = LF then [b] else b :: throughNewline bs

/-- The bytes of `l` with every `'\r'` removed. -/
def stripCR (l : List Nat) : List Nat :=
  l.filter (fun b => decide (b ≠ CR))

/-- What one `read_line` with capacity `max` is to store of the segment `seg`:
its bytes without `'\r'`, through the first `'\n'`, at most `max` of them. -/
def lineSpec (max : Nat) (seg : List Nat) : List Nat :=
  (throughNewline (stripCR seg)).take max

/-- The bytes a read handed to the application: the first `ret` bytes of the
buffer (none for a negative return value or a null buffer). -/
def retBytes (r : Int × Option BufPtr) : List Nat :=
  match r.2 with
  | none => []
  | some p => p.view r.1.toNat

/-- A callback event of the stack that carries new data only: the segment
`seg`, with the connection's maximum segment size `mss`. -/
def newdataEvent (seg : List Nat) (mss : Nat) : TcpEvent :=
  { aborted := false, timedout := false, acked := false, newdata := true,
    rexmit := false, closed := false, poll := false, data := seg, mss := mss }

/-- What successive reads with the capacities `caps` are to receive of the
segment `seg`: each read the next bytes of the segment, at most its capacity. -/
def readChunks : List Nat → List Nat → List (List Nat)
  | [], _ => []
  | m :: ms, seg => seg.take m :: readChunks ms (seg.drop m)

/-- A connected socket between two calls: state `BUSY`, no buffer, nothing
requested from the stack. -/
def busyCx : Cx :=
  ⟨⟨.BUSY, 0, none, 0, 0, none, none, true, true, true⟩,
    true, [], 0, 0, 0, [], false, 0, 0, 0, [], false⟩

/-- The socket `busyCx` with a reader parked in the wait-state `st` on the
buffer `p` with capacity `max`. -/
def readerCx (st : NetSockState) (p : BufPtr) (max : Nat) : Cx :=
  { busyCx with sock := { busyCx.sock with state := st, buf := some p, max := max, len := 0 }
                sockSignals := 1 }

/-- A callback event of the stack with the poll flag only. -/
def pollEvent (mss : Nat) : TcpEvent :=
  { aborted := false, timedout := false, acked := false, newdata := false,
    rexmit := false, closed := false, poll := true, data := [], mss := mss }

/-- A callback event of the stack with the acked flag only. -/
def ackedEvent (mss : Nat) : TcpEvent :=
  { aborted := false, timedout := false, acked := true, newdata := false,
    rexmit := false, closed := false, poll := false, data := [], mss := mss }

/-- A callback event of the stack with the aborted flag only. -/
def abortedEvent (mss : Nat) : TcpEvent :=
  { aborted := true, timedout := false, acked := false, newdata := false,
    rexmit := false, closed := false, poll := false, data := [], mss := mss }

/-- A callback event of the stack for a segment that carries data and closes
the connection: the new-data and the closed flag together. -/
def dataClosedEvent (seg : List Nat) (mss : Nat) : TcpEvent :=
  { aborted := false, timedout := false, acked := false, newdata := true,
    rexmit := false, closed := true, poll := false, data := seg, mss := mss }

/-- One invocation of the TCP callback as what happens while an API call is
parked, for an invocation that does not wait for a reader: the callback then
holds the socket mutex from its start to its end, so the parked task sees the
record the invocation leaves. -/
def callback (fuel : Nat) (ev : TcpEvent) (script : List AppTurn) : Park Cx :=
  { act := fun x => (netTcpAppcallMutex fuel ev script x).getD x, signalled := true }

/-- The new-data loop up to the point where the callback first gives the
socket mutex away, as what happens while a read is parked: the first pass of
the loop, which is run when the segment is not empty. After it the callback
either waits for the next reader or, with no data left, runs to its end. -/
def firstPass (seg : List Nat) : Park Cx :=
  { act := fun x => if 0 < seg.length then (newdataPass [] seg x).2.2.1 else x
    signalled := true }

/-! ## The UDP callback `netUdpAppcallMutex` -/

/-- The loop `while (sock->state != NET_SOCK_READING && !timeout)` of the UDP
callback, a wait of at most 500 ms on `sockChange` per turn of the
application task. -/
def waitReaderUdp : List AppTurn → Cx → Bool → Cx × Bool
  | [], c, timeout =>
    if c.sock.state ≠ .READING ∧ timeout = false then (c, true) else (c, timeout)
  | t :: ts, c, timeout =>
    if c.sock.state ≠ .READING ∧ timeout = false then
      waitReaderUdp ts (appTurn t c).1 (!(appTurn t c).2)
    else (c, timeout)

/-- The function `netUdpAppcallMutex`: `newdata` and `poll` are the flags of
the event and `data` the datagram. -/
def netUdpAppcallMutex (newdata poll : Bool) (data : List Nat) (script : List AppTurn)
    (c : Cx) : Cx :=
  let c1 :=
    if newdata then
      let w := waitReaderUdp script c false
      if w.2 = false then
        let n := if data.length > w.1.sock.max then w.1.sock.max else data.length
        { w.1 with sock := { w.1.sock with len := n, buf := memcpy w.1.sock.buf data n,
                                           state := .READ_OK }
                   uipSignals := w.1.uipSignals + 1 }
      else w.1
    else c
  if poll then
    if c1.sock.state = .CLOSE then
      netAppcallClose { c1 with udpRemoved := c1.udpRemoved + 1 } .CLOSE_OK
    else if c1.sock.state = .WRITING then
      { c1 with udpSent := c1.udpSent ++ [(c1.sock.buf.map (fun p => p.view c1.sock.len)).getD []]
                sock := { c1.sock with state := .WRITE_OK }
                uipSignals := c1.uipSignals + 1 }
    else c1
  else c1

/-! ## The socket table, allocation and the calls that configure a socket -/

/-- The record of a slot that has never been allocated: static storage, all
zero. -/
def nullSock : NetSock :=
  ⟨.NULL, 0, none, 0, 0, none, none, false, false, false⟩

/-- The socket table `netSocketTable` with its bitmap (`SOCK_TABSIZE` is the
length of `used`), the registry of file handles, and what the allocation,
configuration, close and accept paths touch of the stack: the ports
registered with `uip_listen`, the connection `uip_conn` the callback runs for
(its number `conn`, its local port `lport` and its `appstate.file`), and the
number of `uip_abort` calls. A file handle is identified with the slot of the
record it points to (`file->fsPriv`). `filesFree` is the number of handles
`uosFileAlloc` can still hand out and `freed` lists, in order, the handles
passed to `netSockFree`. -/
structure World where
  used : List Bool
  socks : List NetSock
  filesFree : Nat
  freed : List Nat
  listening : List Nat
  conn : Nat
  lport : Nat
  connFile : Option Nat
  udpFile : Option Nat
  aborts : Nat
  dataToSend : Bool
  giant : Nat
deriving DecidableEq, Repr

/-- The record `UOS_BITTAB_ELEM(netSocketTable, slot)`. -/
def World.sockAt (w : World) (slot : Nat) : NetSock :=
  w.socks.getD slot nullSock

/-- A store to the record of a slot. -/
def World.setSock (w : World) (slot : Nat) (s : NetSock) : World :=
  { w with socks := w.socks.set slot s }

/-- Modelled from the spec: `UOS_BITTAB_ALLOC` of the bit-table library (not
part of the sources at hand), "allocation scans for a free slot": the index of
the first clear bit, or none when every bit is set (the macro's -1). -/
def bittabAlloc : List Bool → Option Nat
  | [] => none
  | b :: bs => if b = false then some 0 else (bittabAlloc bs).map (fun i => i + 1)

/-- Modelled from the spec: byte order conversion `uip_htons` of the stack, on
a little-endian host. -/
def uip_htons (port : Nat) : Nat :=
  (port % 256) * 256 + (port / 256) % 256

/-- The function `netSockAlloc`. The handle of `uosFileAlloc` is taken from
the registry; when the table is full it is given back. The three events are
taken to be created successfully. -/
def netSockAlloc (w : World) (initialState : NetSockState) : Option Nat × World :=
  if w.filesFree = 0 then (none, w)
  else
    match bittabAlloc w.used with
    | none => (none, w)
    | some slot =>
      (some slot,
       { w with used := w.used.set slot true
                socks := w.socks.set slot
                  { w.sockAt slot with state := initialState, mutex := true, sockChange := true,
                                       uipChange := true, timeout := none, buf := none,
                                       len := 0, max := 0 }
                filesFree := w.filesFree - 1 })

/-- The function `netSockFree`: the events are destroyed, the state is set to
`NET_SOCK_NULL` and the handle goes back to the registry. The bitmap is not
touched. -/
def netSockFree (w : World) (file : Nat) : World :=
  { w with socks := w.socks.set file
             { w.sockAt file with mutex := false, sockChange := false, uipChange := false,
                                  state := .NULL }
           filesFree := w.filesFree + 1
           freed := w.freed ++ [file] }

/-- The function `netSockBind` (with `UIP_ACTIVE_OPEN == 1`). -/
def netSockBind (w : World) (file : Nat) (port : Nat) : Res World Int :=
  if (w.sockAt file).state = .UNDEF_TCP ∨ (w.sockAt file).state = .UNDEF_UDP then
    .done 0 (w.setSock file
      { w.sockAt file with
        port := uip_htons port
        state := if (w.sockAt file).state = .UNDEF_TCP then .BOUND else .BOUND_UDP })
  else .assertFailed

/-- The function `netSockListen`. -/
def netSockListen (w : World) (file : Nat) : World :=
  { w.setSock file { w.sockAt file with state := .LISTENING } with
    listening := w.listening ++ [(w.sockAt file).port] }

/-! ## Closing, connecting and creating sockets -/

/-- Lines 496-503 of `sockClose`: a socket in `BUSY` is put into `CLOSE` and the
network thread is woken. -/
def sockCloseEnter (w : World) (file : Nat) : World :=
  { w.setSock file { w.sockAt file with state := .CLOSE } with
    dataToSend := true
    giant := w.giant + 1 }

/-- Lines 513-528 of `sockClose`: a listener is unregistered, the state is
asserted to be terminal and the record is freed. -/
def sockCloseFinish (w : World) (file : Nat) : Res World Int :=
  let w1 :=
    if (w.sockAt file).state = .LISTENING then
      { w.setSock file { w.sockAt file with port := 0, state := .CLOSE_OK } with
        listening := w.listening.erase (w.sockAt file).port }
    else w
  if (w1.sockAt file).state = .PEER_CLOSED ∨ (w1.sockAt file).state = .PEER_ABORTED ∨
      (w1.sockAt file).state = .CLOSE_OK then
    .done 0 (netSockFree w1 file)
  else .assertFailed

/-- The function `sockClose`. -/
def sockClose (w : World) (file : Nat) (parks : List (Park World)) : Res World Int :=
  if (w.sockAt file).state = .BUSY then
    match waitWhile (fun x => decide ((x.sockAt file).state = .CLOSE)) parks
        (sockCloseEnter w file) with
    | none => .blocked
    | some w1 => sockCloseFinish w1 file
  else sockCloseFinish w file

/-- Modelled from the spec: `uosFileClose` of the generic file layer (not part
of the sources at hand), "the generic file vtable routes close into this
subsystem": the call of the `close` entry of `netSockConf`, which is
`sockClose`. -/
def uosFileClose (w : World) (file : Nat) (parks : List (Park World)) : Res World Int :=
  sockClose w file parks

/-- The outcome of the entry section of `netSockConnect`. -/
inductive ConnectEntry
  | ret (v : Int) (w : World)
  | parked (w : World)
  | assertFailed
deriving DecidableEq, Repr

/-- Lines 183-205 and 225-246 of `netSockConnect` (with `UIP_ACTIVE_OPEN == 1`
and `UIP_CONF_UDP == 1`): `connects` tells whether `uip_connect` or
`uip_udp_new` hands out a connection. -/
def netSockConnectEnter (w : World) (file : Nat) (connects : Bool) : ConnectEntry :=
  if ¬ ((w.sockAt file).state = .UNDEF_TCP ∨ (w.sockAt file).state = .UNDEF_UDP ∨
        (w.sockAt file).state = .BOUND ∨ (w.sockAt file).state = .BOUND_UDP) then .assertFailed
  else if (w.sockAt file).state = .UNDEF_TCP then
    if connects = false then .ret (-1) w
    else .parked { w.setSock file { w.sockAt file with state := .CONNECT } with
                   connFile := some file }
  else
    if connects = false then .ret (-1) w
    else .ret 0 { w.setSock file { w.sockAt file with state := .BUSY } with
                  udpFile := some file }

/-- Lines 214-223 of `netSockConnect`: the classification on wake. -/
def netSockConnectFinish (w : World) (file : Nat) : Res World Int :=
  if (w.sockAt file).state = .PEER_CLOSED ∨ (w.sockAt file).state = .PEER_ABORTED then
    match uosFileClose w file [] with
    | .done _ w1 => .done (-1) w1
    | .assertFailed => .assertFailed
    | .blocked => .blocked
  else if (w.sockAt file).state = .CONNECT_OK then
    .done 0 (w.setSock file { w.sockAt file with state := .BUSY })
  else .assertFailed

/-- The function `netSockConnect`. -/
def netSockConnect (w : World) (file : Nat) (connects : Bool) (parks : List (Park World)) :
    Res World Int :=
  match netSockConnectEnter w file connects with
  | .ret v w1 => .done v w1
  | .assertFailed => .assertFailed
  | .parked w1 =>
    match waitWhile (fun x => decide ((x.sockAt file).state = .CONNECT)) parks w1 with
    | none => .blocked
    | some w2 => netSockConnectFinish w2 file

/-- The common body of `netSockCreateTCP` and `netSockCreateUDP`. -/
def netSockCreate (initialState : NetSockState) (w : World) (connects : Bool)
    (parks : List (Park World)) : Res World (Option Nat) :=
  match netSockAlloc w initialState with
  | (none, w1) => .done none w1
  | (some file, w1) =>
    match netSockConnect w1 file connects parks with
    | .done v w2 => if v = -1 then .done none (netSockFree w2 file) else .done (some file) w2
    | .assertFailed => .assertFailed
    | .blocked => .blocked

/-- The function `netSockCreateTCP`. -/
def netSockCreateTCP (w : World) (connects : Bool) (parks : List (Park World)) :
    Res World (Option Nat) :=
  netSockCreate .UNDEF_TCP w connects parks

/-- The function `netSockCreateUDP`. -/
def netSockCreateUDP (w : World) (connects : Bool) (parks : List (Park World)) :
    Res World (Option Nat) :=
  netSockCreate .UNDEF_UDP w connects parks

/-- The function `netSockCreateTCPServer`. -/
def netSockCreateTCPServer (w : World) (port : Nat) : Res World (Option Nat) :=
  match netSockAlloc w .UNDEF_TCP with
  | (none, w1) => .done none w1
  | (some file, w1) =>
    match netSockBind w1 file port with
    | .done v w2 => if v = -1 then .done none (netSockFree w2 file) else .done (some file) w2
    | .assertFailed => .assertFailed
    | .blocked => .blocked

/-- The function `netAppcallClose` on the record of the handle `file` in the
table: what the TCP callback does to a socket whose connection ends. -/
def World.netAppcallClose (w : World) (file : Nat) (nextState : NetSockState) : World :=
  { w.setSock file { w.sockAt file with state := nextState } with connFile := none }

/-! ## Accepting a connection -/

/-- Lines 309-314 of `netSockAccept`: the listener is asserted to be in
`LISTENING` and put into `ACCEPTING`. -/
def netSockAcceptEnter (w : World) (listenFile : Nat) : Option World :=
  if (w.sockAt listenFile).state = .LISTENING then
    some (w.setSock listenFile { w.sockAt listenFile with state := .ACCEPTING })
  else none

/-- Lines 323-332 of `netSockAccept`: the listener is asserted to be in
`ACCEPTED`, the handle of the new connection is taken and the listener goes
back to `LISTENING`. -/
def netSockAcceptFinish (w : World) (listenFile : Nat) : Res World (Option Nat) :=
  if (w.sockAt listenFile).state = .ACCEPTED then
    .done w.connFile
      (w.setSock listenFile { w.sockAt listenFile with newConnection := none, state := .LISTENING })
  else .assertFailed

/-- The function `netSockAccept`. -/
def netSockAccept (w : World) (listenFile : Nat) (parks : List (Park World)) :
    Res World (Option Nat) :=
  match netSockAcceptEnter w listenFile with
  | none => .assertFailed
  | some w1 =>
    match waitWhile (fun x => decide ((x.sockAt listenFile).state = .ACCEPTING)) parks w1 with
    | none => .blocked
    | some w2 => netSockAcceptFinish w2 listenFile

/-- The test of lines 572-575: a record that listens on the local port of the
connection. -/
def isListener (s : NetSock) (lport : Nat) : Bool :=
  decide ((s.state = .LISTENING ∨ s.state = .ACCEPTING ∨ s.state = .ACCEPTED) ∧ s.port = lport)

/-- The loop `for (i = 0; i < SOCK_TABSIZE; i++, listenSock++)` of lines
566-577 with `n` iterations left at index `i`: the value of `i` when the loop
is left, which is `SOCK_TABSIZE` when no occupied slot holds a listener of the
port. -/
def listenerScan (w : World) : Nat → Nat → Nat
  | 0, i => i
  | n + 1, i =>
    if w.used.getD i false = false then listenerScan w n (i + 1)
    else if isListener (w.sockAt i) w.lport then i
    else listenerScan w n (i + 1)

/-- The loop `while (listenSock->state != NET_SOCK_ACCEPTING && !timeout)` of
lines 588-593, a wait of at most 200 ms on `sockChange` per entry of `waits`:
what the application does in the meantime and whether it set the flag. With
nothing more to happen the wait times out. -/
def acceptWait (i : Nat) : List (Park World) → World → Bool → World × Bool
  | [], w, timeout =>
    if (w.sockAt i).state ≠ .ACCEPTING ∧ timeout = false then (w, true) else (w, timeout)
  | p :: ps, w, timeout =>
    if (w.sockAt i).state ≠ .ACCEPTING ∧ timeout = false then
      acceptWait i ps (p.act w) (!p.signalled)
    else (w, timeout)

/-- The `uip_connected()` block of `netTcpAppcall` (lines 537-633).
`acceptHook` is the value the installed accept hook returns, or none when no
hook is installed. -/
def netTcpAppcall (w : World) (acceptHook : Option Int) (waits : List (Park World)) : World :=
  match w.connFile with
  | none =>
    match acceptHook with
    | some r =>
      match netSockAlloc w .BUSY with
      | (none, w1) => { w1 with aborts := w1.aborts + 1 }
      | (some file, w1) =>
        if r = -1 then
          { netSockFree { w1 with connFile := some file } file with
            connFile := none
            aborts := w1.aborts + 1 }
        else { w1 with connFile := some file }
    | none =>
      if listenerScan w w.used.length 0 ≥ w.used.length then { w with aborts := w.aborts + 1 }
      else
        let r := acceptWait (listenerScan w w.used.length 0) waits w false
        if r.2 = true then { r.1 with aborts := r.1.aborts + 1 }
        else
          match netSockAlloc r.1 .BUSY with
          | (none, w1) => { w1 with aborts := w1.aborts + 1 }
          | (some file, w1) =>
            { w1.setSock (listenerScan w w.used.length 0)
                { w1.sockAt (listenerScan w w.used.length 0) with
                  newConnection := some w1.conn
                  state := .ACCEPTED } with
              connFile := some file }
  | some file =>
    if (w.sockAt file).state = .CONNECT then
      w.setSock file { w.sockAt file with state := .CONNECT_OK }
    else w

/-- One allocate/free cycle: a socket is allocated and, when that succeeded,
freed again. -/
def allocFree (st : NetSockState) (w : World) : World :=
  match netSockAlloc w st with
  | (some file, w1) => netSockFree w1 file
  | (none, w1) => w1

/-- An empty table of `n` slots with `files` file handles to hand out. -/
def emptyWorld (n files : Nat) : World :=
  { used := List.replicate n false, socks := List.replicate n nullSock, filesFree := files,
    freed := [], listening := [], conn := 0, lport := 0, connFile := none, udpFile := none,
    aborts := 0, dataToSend := false, giant := 0 }

/-- The value of `i` when the listener scan of the accept path is left. -/
def acceptListener (w : World) : Nat :=
  listenerScan w w.used.length 0

/-- The table when the wait of the accept path for the listener ends. -/
def acceptWorld (w : World) (waits : List (Park World)) : World :=
  (acceptWait (acceptListener w) waits w false).1

/-- The value of `timeout` when the wait of the accept path ends. -/
def acceptTimedOut (w : World) (waits : List (Park World)) : Bool :=
  (acceptWait (acceptListener w) waits w false).2

/-- What the accept path is to look for, in the words of the specification: an
occupied slot of the table whose record has the local port of the connection
and is in `LISTENING`, `ACCEPTING` or `ACCEPTED`. -/
def ListensOn (w : World) (j : Nat) : Prop :=
  w.used.getD j false = true ∧
    ((w.sockAt j).state = .LISTENING ∨ (w.sockAt j).state = .ACCEPTING ∨
      (w.sockAt j).state = .ACCEPTED) ∧
    (w.sockAt j).port = w.lport

instance (w : World) (j : Nat) : Decidable (ListensOn w j) := by
  unfold ListensOn
  infer_instance

/-- The table after the first `k` turns the application takes while the
callback waits. -/
def afterTurns (waits : List (Park World)) (k : Nat) (w : World) : World :=
  (waits.take k).foldl (fun x p => p.act x) w

/-- The listener in slot `i` reaches `ACCEPTING` before the wait of the
callback times out, after `k` turns of the application: it is in `ACCEPTING`
after the `k`-th turn and not before, and each of the `k` waits was ended by
the flag and not by the 200 ms running out. -/
def ReachesAccepting (i : Nat) (waits : List (Park World)) (w : World) (k : Nat) : Prop :=
  k ≤ waits.length ∧
    ((afterTurns waits k w).sockAt i).state = .ACCEPTING ∧
    (∀ j, j < k → ((afterTurns waits j w).sockAt i).state ≠ .ACCEPTING) ∧
    (∀ p ∈ waits.take k, p.signalled = true)

/-- The table `w` with one more server socket for `port`, made by
`netSockCreateTCPServer` and `netSockListen`. -/
def withServer (port : Nat) (w : World) : World :=
  match netSockCreateTCPServer w port with
  | .done (some file) w1 => netSockListen w1 file
  | _ => w

/-- The table `w` with one more UDP socket bound to `port`, made by
`netSockAlloc` and `netSockBind`. -/
def withBoundUdp (port : Nat) (w : World) : World :=
  match netSockAlloc w .UNDEF_UDP with
  | (some file, w1) =>
    match netSockBind w1 file port with
    | .done _ w2 => w2
    | _ => w1
  | (none, w1) => w1

/-- A table of six slots at the moment the stack reports a new connection
(number 7) to port 80: slot 0 holds a listener for port 21, slot 1 a UDP
socket bound to port 80, slots 2 and 3 a listener for port 80 each, slots 4
and 5 are free. -/
def busyTable : World :=
  { withServer 80 (withServer 80 (withBoundUdp 80 (withServer 21 (emptyWorld 6 8)))) with
    lport := uip_htons 80
    conn := 7 }

/-- The application task calls `netSockAccept` on the handle `listenFile` while
the callback waits for the listener. -/
def acceptCall (listenFile : Nat) : Park World :=
  { act := fun x => (netSockAcceptEnter x listenFile).getD x, signalled := true }

/-- A wait of 200 ms during which the application does nothing and the flag
is not set. -/
def idleWait : Park World :=
  { act := fun x => x, signalled := false }

/-! ## Reachable socket records -/

/-- The wait-states in which the record lends the caller's buffer to the
network thread. -/
def holdsBuf (st : NetSockState) : Prop :=
  st = .READING ∨ st = .READING_LINE ∨ st = .WRITING

/-- A turn of the application task in which every read passes a buffer that is
not null. -/
def AppTurn.hasBuf : AppTurn → Bool
  | .read _ data _ => data.isSome
  | _ => true

/-- One atomic section of the code that works on the socket table: an
allocation or a free, a configuration call, the entry or the wake section of a
call that waits, or the connected block of the TCP callback. The sections of a
call that waits are steps of their own, so what the other thread does during
the wait is a step of its own as well. -/
inductive TableStep : World → World → Prop
  | alloc (w : World) (st : NetSockState) :
      st = .UNDEF_TCP ∨ st = .UNDEF_UDP ∨ st = .BUSY → TableStep w (netSockAlloc w st).2
  | free (w : World) (file : Nat) : TableStep w (netSockFree w file)
  | bind (w : World) (file port : Nat) (r : Int) (w1 : World) :
      netSockBind w file port = .done r w1 → TableStep w w1
  | listen (w : World) (file : Nat) : TableStep w (netSockListen w file)
  | connectParked (w : World) (file : Nat) (connects : Bool) (w1 : World) :
      netSockConnectEnter w file connects = .parked w1 → TableStep w w1
  | connectRet (w : World) (file : Nat) (connects : Bool) (v : Int) (w1 : World) :
      netSockConnectEnter w file connects = .ret v w1 → TableStep w w1
  | connectFinish (w : World) (file : Nat) (v : Int) (w1 : World) :
      netSockConnectFinish w file = .done v w1 → TableStep w w1
  | closeEnter (w : World) (file : Nat) :
      (w.sockAt file).state = .BUSY → TableStep w (sockCloseEnter w file)
  | closeFinish (w : World) (file : Nat) (v : Int) (w1 : World) :
      sockCloseFinish w file = .done v w1 → TableStep w w1
  | acceptEnter (w : World) (file : Nat) (w1 : World) :
      netSockAcceptEnter w file = some w1 → TableStep w w1
  | acceptFinish (w : World) (file : Nat) (r : Option Nat) (w1 : World) :
      netSockAcceptFinish w file = .done r w1 → TableStep w w1
  | connected (w : World) (acceptHook : Option Int) :
      TableStep w (netTcpAppcall w acceptHook [])
  | peerEnd (w : World) (file : Nat) (next : NetSockState) :
      next = .PEER_CLOSED ∨ next = .PEER_ABORTED ∨ next = .CLOSE_OK →
      TableStep w (w.netAppcallClose file next)

/-- The socket records that can be reached from `netSockAlloc` through the
calls of the API and the callbacks, with every read and write passing a buffer
that is not null. -/
inductive Reach : NetSock → Prop
  | alloc (w : World) (st : NetSockState) (file : Nat) :
      st = .UNDEF_TCP ∨ st = .UNDEF_UDP ∨ st = .BUSY →
      (netSockAlloc w st).1 = some file → Reach ((netSockAlloc w st).2.sockAt file)
  | table (w w1 : World) (file : Nat) :
      Reach (w.sockAt file) → TableStep w w1 → Reach (w1.sockAt file)
  | readEnter (c : Cx) (st : NetSockState) (p : BufPtr) (max : Nat) (c1 : Cx) :
      Reach c.sock → st = .READING ∨ st = .READING_LINE →
      sockReadEnter c st (some p) max = .parked c1 → Reach c1.sock
  | readFinish (c : Cx) (st : NetSockState) (timedOut : Bool) (r : Int) (c1 : Cx) :
      Reach c.sock → sockReadFinish st timedOut c = .done r c1 → Reach c1.sock
  | writeEnter (c : Cx) (p : BufPtr) (len : Nat) (c1 : Cx) :
      Reach c.sock → sockWriteEnter c (some p) len = .parked c1 → Reach c1.sock
  | writeFinish (c : Cx) (len : Nat) (r : Int) (c1 : Cx) :
      Reach c.sock → sockWriteFinish len c = .done r c1 → Reach c1.sock
  | tcp (c : Cx) (fuel : Nat) (ev : TcpEvent) (script : List AppTurn) (c1 : Cx) :
      Reach c.sock → (∀ t ∈ script, t.hasBuf = true) →
      netTcpAppcallMutex fuel ev script c = some c1 → Reach c1.sock
  | udp (c : Cx) (newdata poll : Bool) (data : List Nat) (script : List AppTurn) :
      Reach c.sock → (∀ t ∈ script, t.hasBuf = true) →
      Reach (netUdpAppcallMutex newdata poll data script c).sock

/-- A change of the table's records that hands no buffer to the network
thread: every record is as it was or is in a state that holds no buffer. -/
def Quiet (a b : List NetSock) : Prop :=
  ∀ f : Nat, b.getD f nullSock = a.getD f nullSock ∨ ¬ holdsBuf (b.getD f nullSock).state

/-- The buffer of a record is not null while the record is in a wait-state
that lends it to the network thread. -/
def BufInv (s : NetSock) : Prop :=
  holdsBuf s.state → s.buf ≠ none

/-! ## Lemmas on buffers -/

theorem take_set_succ (l : List Nat) (n v : Nat) (h : n < l.length) :
    (l.set n v).take (n + 1) = l.take n ++ [v] := by
  induction l generalizing n with
  | nil => simp at h
  | cons a t ih =>
    cases n with
    | zero => simp
    | succ k =>
      have hk : k < t.length := by simpa using h
      simp [ih k hk]

theorem drop_set_add (l : List Nat) (o i v : Nat) :
    (l.set (o + i) v).drop o = (l.drop o).set i v := by
  induction l generalizing o with
  | nil => simp
  | cons a t ih =>
    cases o with
    | zero => simp
    | succ k =>
      have e : k + 1 + i = (k + i) + 1 := by omega
      simp [e, ih k]

theorem BufPtr.poke_off (p : BufPtr) (i v : Nat) : (p.poke i v).off = p.off := rfl

theorem BufPtr.poke_length (p : BufPtr) (i v : Nat) :
    (p.poke i v).mem.length = p.mem.length := by
  simp [BufPtr.poke]

theorem BufPtr.view_poke (p : BufPtr) (n v : Nat) (h : p.off + n < p.mem.length) :
    (p.poke n v).view (n + 1) = p.view n ++ [v] := by
  unfold BufPtr.view BufPtr.poke
  simp only [drop_set_add]
  apply take_set_succ
  simp
  omega

theorem BufPtr.view_zero (p : BufPtr) : p.view 0 = [] := by
  simp [BufPtr.view]

theorem BufPtr.view_length (p : BufPtr) (n : Nat) (h : p.off + n ≤ p.mem.length) :
    (p.view n).length = n := by
  simp [BufPtr.view]
  omega

theorem BufPtr.peek_eq_view (p : BufPtr) (i n : Nat) (h : i < n) :
    p.peek i = (p.view n).getD i 0 := by
  unfold BufPtr.peek BufPtr.view
  simp [List.getD_eq_getElem?_getD, List.getElem?_take, h]

/-! ## The line copy of `read_line` -/

theorem stripCR_cons_CR (rest : List Nat) : stripCR (CR :: rest) = stripCR rest := by
  simp [stripCR]

theorem stripCR_cons_ne (ch : Nat) (rest : List Nat) (h : ch ≠ CR) :
    stripCR (ch :: rest) = ch :: stripCR rest := by
  simp [stripCR, h]

theorem stripCR_append (a b : List Nat) : stripCR (a ++ b) = stripCR a ++ stripCR b := by
  simp [stripCR]

theorem throughNewline_take_of_no_LF (l : List Nat) (n : Nat)
    (h : ∀ b ∈ l.take n, b ≠ LF) : (throughNewline l).take n = l.take n := by
  induction l generalizing n with
  | nil => simp [throughNewline]
  | cons a t ih =>
    cases n with
    | zero => simp
    | succ k =>
      have ha : a ≠ LF := h a (by simp)
      have ht : ∀ b ∈ t.take k, b ≠ LF := fun b hb => h b (by simp [hb])
      simp [throughNewline, ha, ih k ht]

/-- The line loop appends to the bytes already stored the bytes of the data
without carriage returns, through the first line feed, as far as the capacity
goes; nothing else of the record changes. -/
theorem lineLoop_spec (data : List Nat) (s : NetSock) (p : BufPtr)
    (hbuf : s.buf = some p) (hlen : s.len ≤ s.max) (hcap : p.off + s.max ≤ p.mem.length) :
    ∃ q : BufPtr, q.off = p.off ∧ q.mem.length = p.mem.length ∧
      (lineLoop data s).2 =
        { s with buf := some q,
                 len := s.len + ((throughNewline (stripCR data)).take (s.max - s.len)).length } ∧
      q.view (s.len + ((throughNewline (stripCR data)).take (s.max - s.len)).length) =
        p.view s.len ++ (throughNewline (stripCR data)).take (s.max - s.len) := by
  induction data generalizing s p with
  | nil =>
    refine ⟨p, rfl, rfl, ?_, ?_⟩
    · simp [lineLoop, stripCR, throughNewline, ← hbuf]
    · simp [stripCR, throughNewline]
  | cons ch rest ih =>
    by_cases hlt : s.len < s.max
    · by_cases hcr : ch = CR
      · subst hcr
        obtain ⟨q, h1, h2, h3, h4⟩ := ih s p hbuf hlen hcap
        refine ⟨q, h1, h2, ?_, ?_⟩
        · simp only [lineLoop, hlt, if_true, stripCR_cons_CR]
          exact h3
        · simpa only [stripCR_cons_CR] using h4
      · have hpos : s.max - s.len = (s.max - (s.len + 1)) + 1 := by omega
        have hv : (p.poke s.len ch).view (s.len + 1) = p.view s.len ++ [ch] :=
          BufPtr.view_poke p s.len ch (by omega)
        by_cases hlf : ch = LF
        · refine ⟨p.poke s.len ch, rfl, BufPtr.poke_length _ _ _, ?_, ?_⟩
          · have hne : ¬ (LF = CR) := by decide
            simp [lineLoop, hlt, hne, hlf, stripCR_cons_ne, throughNewline, hbuf, hpos]
          · rw [stripCR_cons_ne ch rest hcr, hpos]
            simp [throughNewline, hlf]
            simpa [hlf] using hv
        · obtain ⟨q, h1, h2, h3, h4⟩ :=
            ih { s with buf := some (p.poke s.len ch), len := s.len + 1 } (p.poke s.len ch)
              rfl (by simpa using hlt) (by simpa [BufPtr.poke_length, BufPtr.poke_off] using hcap)
          refine ⟨q, by simpa [BufPtr.poke_off] using h1,
            by simpa [BufPtr.poke_length] using h2, ?_, ?_⟩
          · simp only [lineLoop, hlt, hcr, hlf, if_true, if_false, hbuf, Option.map_some']
            rw [h3, stripCR_cons_ne ch rest hcr, hpos]
            simp [throughNewline, hlf]
            omega
          · rw [stripCR_cons_ne ch rest hcr, hpos]
            simp only [throughNewline, hlf, if_false, List.take_succ_cons, List.length_cons]
            have e : s.len + (((throughNewline (stripCR rest)).take (s.max - (s.len + 1))).length + 1)
                = s.len + 1 + ((throughNewline (stripCR rest)).take (s.max - (s.len + 1))).length := by
              omega
            rw [e]
            simp only at h4
            rw [h4, hv]
            simp
    · have hz : s.max - s.len = 0 := by omega
      refine ⟨p, rfl, rfl, ?_, ?_⟩
      · simp [lineLoop, hlt, hz, ← hbuf]
      · simp [hz]

theorem getD_pred_eq_LF_iff (X : List Nat) (h : X ≠ []) :
    X.getD (X.length - 1) 0 = LF ↔ X.getLast? = some LF := by
  rw [List.getLast?_eq_getElem?, List.getD_eq_getElem?_getD]
  have hl : X.length - 1 < X.length := by
    have : 0 < X.length := List.length_pos.mpr h
    omega
  rw [List.getElem?_eq_getElem hl]
  simp

/-- The state test after the line loop, in terms of the bytes stored. -/
theorem tcpReadLine_spec (seg : List Nat) (c : Cx) (p : BufPtr)
    (hlen : c.sock.len = 0) (hmax : 1 ≤ c.sock.max)
    (hbuf : c.sock.buf = some p) (hcap : p.off + c.sock.max ≤ p.mem.length) :
    ∃ q : BufPtr, q.off = p.off ∧ q.mem.length = p.mem.length ∧
      q.view (lineSpec c.sock.max seg).length = lineSpec c.sock.max seg ∧
      (tcpReadLine seg c).2 =
        (if (lineSpec c.sock.max seg).getLast? = some LF ∨
            (lineSpec c.sock.max seg).length = c.sock.max then
          { c with sock := { c.sock with buf := some q, len := (lineSpec c.sock.max seg).length,
                                         state := .READ_OK },
                   uipSignals := c.uipSignals + 1 }
        else
          { c with sock := { c.sock with buf := some q,
                                         len := (lineSpec c.sock.max seg).length } }) := by
  obtain ⟨q, h1, h2, h3, h4⟩ := lineLoop_spec seg c.sock p hbuf (by omega) hcap
  simp only [hlen, Nat.zero_add, Nat.sub_zero, BufPtr.view_zero, List.nil_append] at h3 h4
  have hX : (throughNewline (stripCR seg)).take c.sock.max = lineSpec c.sock.max seg := rfl
  rw [hX] at h3 h4
  refine ⟨q, h1, h2, h4, ?_⟩
  unfold tcpReadLine
  simp only [h3]
  by_cases hnil : lineSpec c.sock.max seg = []
  · have hne : ¬ (0 = c.sock.max) := by omega
    simp [hnil, hne]
  · have hpos : (lineSpec c.sock.max seg).length ≠ 0 := by
      simpa [List.length_eq_zero] using hnil
    have hpk : peekBuf (some q) ((lineSpec c.sock.max seg).length - 1) = LF ↔
        (lineSpec c.sock.max seg).getLast? = some LF := by
      have e : peekBuf (some q) ((lineSpec c.sock.max seg).length - 1)
          = (lineSpec c.sock.max seg).getD ((lineSpec c.sock.max seg).length - 1) 0 := by
        show q.peek _ = _
        rw [BufPtr.peek_eq_view q _ (lineSpec c.sock.max seg).length (by omega), h4]
      rw [e]
      exact getD_pred_eq_LF_iff _ hnil
    by_cases hc : (lineSpec c.sock.max seg).getLast? = some LF ∨
        (lineSpec c.sock.max seg).length = c.sock.max
    · have hc2 : (lineSpec c.sock.max seg).length = c.sock.max ∨
          peekBuf (some q) ((lineSpec c.sock.max seg).length - 1) = LF := by
        rcases hc with h | h
        · exact Or.inr (hpk.mpr h)
        · exact Or.inl h
      simp only [hc, if_true]
      rw [if_pos ⟨hpos, hc2⟩]
    · have hc2 : ¬ ((lineSpec c.sock.max seg).length ≠ 0 ∧
          ((lineSpec c.sock.max seg).length = c.sock.max ∨
            peekBuf (some q) ((lineSpec c.sock.max seg).length - 1) = LF)) := by
        rintro ⟨_, h | h⟩
        · exact hc (Or.inr h)
        · exact hc (Or.inl (hpk.mp h))
      simp only [hc, if_false]
      rw [if_neg hc2]

/-- C1: for a socket in READING_LINE with len = 0 and max at least 1 (and a
buffer with room for max bytes), the line-copy step of the TCP callback stores
in buf exactly the bytes of the segment with every carriage return removed, up
to and including the first line feed, cut to max bytes; len is the number of
bytes stored; the state becomes READ_OK when the stored bytes end in a line
feed or len = max, and stays READING_LINE otherwise; when no line feed occurs
among the first max bytes without carriage returns, those are what is stored. -/
theorem C1_read_line_copy (seg : List Nat) (c : Cx) (p : BufPtr)
    (hstate : c.sock.state = .READING_LINE) (hlen : c.sock.len = 0) (hmax : 1 ≤ c.sock.max)
    (hbuf : c.sock.buf = some p) (hcap : p.off + c.sock.max ≤ p.mem.length) :
    ∃ q : BufPtr, (tcpReadLine seg c).2.sock.buf = some q ∧
      (tcpReadLine seg c).2.sock.len = (lineSpec c.sock.max seg).length ∧
      q.view (tcpReadLine seg c).2.sock.len = lineSpec c.sock.max seg ∧
      ((lineSpec c.sock.max seg).getLast? = some LF ∨
          (lineSpec c.sock.max seg).length = c.sock.max →
        (tcpReadLine seg c).2.sock.state = .READ_OK) ∧
      (¬ ((lineSpec c.sock.max seg).getLast? = some LF ∨
          (lineSpec c.sock.max seg).length = c.sock.max) →
        (tcpReadLine seg c).2.sock.state = .READING_LINE) ∧
      ((∀ b ∈ (stripCR seg).take c.sock.max, b ≠ LF) →
        lineSpec c.sock.max seg = (stripCR seg).take c.sock.max) := by
  obtain ⟨q, _, _, h3, h4⟩ := tcpReadLine_spec seg c p hlen hmax hbuf hcap
  refine ⟨q, ?_, ?_, ?_, ?_, ?_, ?_⟩
  · rw [h4]; split <;> rfl
  · rw [h4]; split <;> rfl
  · have e : (tcpReadLine seg c).2.sock.len = (lineSpec c.sock.max seg).length := by
      rw [h4]; split <;> rfl
    rw [e, h3]
  · intro h
    rw [h4, if_pos h]
  · intro h
    rw [h4, if_neg h]
    exact hstate
  · intro h
    exact throughNewline_take_of_no_LF _ _ h

/-- C1 at the segment "line\r\n" with max = 32: the buffer holds "line\n". -/
theorem C1_read_line_copy_witness :
    ∃ q : BufPtr,
      (tcpReadLine [108, 105, 110, 101, 13, 10]
        ⟨⟨.READING_LINE, 0, some ⟨List.replicate 32 0, 0⟩, 0, 32, none, none, true, true, true⟩,
          true, [], 0, 0, 0, [], false, 0, 0, 0, [], false⟩).2.sock.buf = some q ∧
      (tcpReadLine [108, 105, 110, 101, 13, 10]
        ⟨⟨.READING_LINE, 0, some ⟨List.replicate 32 0, 0⟩, 0, 32, none, none, true, true, true⟩,
          true, [], 0, 0, 0, [], false, 0, 0, 0, [], false⟩).2.sock.len = 5 ∧
      q.view 5 = [108, 105, 110, 101, 10] ∧
      (tcpReadLine [108, 105, 110, 101, 13, 10]
        ⟨⟨.READING_LINE, 0, some ⟨List.replicate 32 0, 0⟩, 0, 32, none, none, true, true, true⟩,
          true, [], 0, 0, 0, [], false, 0, 0, 0, [], false⟩).2.sock.state = .READ_OK := by
  obtain ⟨q, h1, h2, h3, h4, _, _⟩ :=
    C1_read_line_copy [108, 105, 110, 101, 13, 10]
      ⟨⟨.READING_LINE, 0, some ⟨List.replicate 32 0, 0⟩, 0, 32, none, none, true, true, true⟩,
        true, [], 0, 0, 0, [], false, 0, 0, 0, [], false⟩
      ⟨List.replicate 32 0, 0⟩ rfl rfl (by decide) rfl (by decide)
  have hs : lineSpec 32 [108, 105, 110, 101, 13, 10] = [108, 105, 110, 101, 10] := by decide
  refine ⟨q, h1, ?_, ?_, ?_⟩
  · rw [h2]; simp only [hs]; rfl
  · rw [h2] at h3; simp only [hs] at h3; exact h3
  · apply h4; left; simp only [hs]; rfl

/-! ## Termination of the new-data loop -/

/-- One pass of the new-data loop over a reader parked in `READING_LINE` with
capacity 0 changes neither the data left nor the record nor the script. -/
theorem newdataPass_zero_capacity (script : List AppTurn) (data : List Nat) (c : Cx)
    (hstate : c.sock.state = .READING_LINE) (hlen : c.sock.len = 0) (hmax : c.sock.max = 0) :
    newdataPass script data c = (script, data, c, false) := by
  have hw : waitReader script c false = (script, c, false) := by
    cases script <;> simp [waitReader, hstate]
  have hl : lineLoop data c.sock = (data, c.sock) := by
    cases data <;> simp [lineLoop, hlen, hmax]
  simp [newdataPass, hw, hstate, tcpReadLine, hl, hlen]

theorem lineLoop_le (data : List Nat) :
    ∀ s : NetSock, (lineLoop data s).1.length ≤ data.length := by
  induction data with
  | nil => intro s; simp [lineLoop]
  | cons ch rest ih =>
    intro s
    rw [lineLoop]
    split_ifs
    · exact Nat.le_succ_of_le (ih s)
    · simp
    · exact Nat.le_succ_of_le (ih _)
    · simp

/-- Where the loop does make progress: a pass over a reader in `READING` ends
in `READ_OK`, and a pass over a reader in `READING_LINE` that has room left in
its buffer consumes at least one byte of the data. -/
theorem newdataPass_progress (script : List AppTurn) (data : List Nat) (c : Cx)
    (hdata : data ≠ []) :
    (c.sock.state = .READING → (newdataPass script data c).2.2.1.sock.state = .READ_OK) ∧
    (c.sock.state = .READING_LINE → c.sock.len < c.sock.max →
      (newdataPass script data c).2.1.length < data.length) := by
  constructor
  · intro h
    have hw : waitReader script c false = (script, c, false) := by
      cases script <;> simp [waitReader, h]
    simp [newdataPass, hw, h, tcpRead]
  · intro h hlt
    have hw : waitReader script c false = (script, c, false) := by
      cases script <;> simp [waitReader, h]
    have h1 : (tcpReadLine data c).1 = (lineLoop data c.sock).1 := by
      unfold tcpReadLine
      simp only
      split <;> rfl
    simp only [newdataPass, hw, h, reduceCtorEq, if_false, if_true, Bool.false_eq_true, h1]
    cases data with
    | nil => exact absurd rfl hdata
    | cons ch rest =>
      rw [lineLoop]
      simp only [hlt, if_true]
      split_ifs
      · exact Nat.lt_succ_of_le (lineLoop_le rest _)
      · simp
      · exact Nat.lt_succ_of_le (lineLoop_le rest _)

/-- C13: the new-data loop of the TCP callback does not terminate when the
reader is parked in READING_LINE with capacity max = 0 and the segment is not
empty: a pass leaves the data left and the record as they were, so the loop
runs out of every amount of fuel. -/
theorem C13_newdata_loop_zero_capacity (fuel : Nat) (script : List AppTurn) (data : List Nat)
    (c : Cx) (hstate : c.sock.state = .READING_LINE) (hlen : c.sock.len = 0)
    (hmax : c.sock.max = 0) (hdata : 0 < data.length) :
    newdataPass script data c = (script, data, c, false) ∧
      newdataLoop fuel script data c false = none := by
  have hp := newdataPass_zero_capacity script data c hstate hlen hmax
  refine ⟨hp, ?_⟩
  induction fuel with
  | zero => simp [newdataLoop, hdata]
  | succ n ih =>
    rw [newdataLoop]
    simp only [hdata, true_and, if_true, hp]
    exact ih

/-- C13 at a one-byte segment and a `read_line` with capacity 0. -/
theorem C13_newdata_loop_zero_capacity_witness :
    newdataPass [] [120]
        ⟨⟨.READING_LINE, 0, some ⟨[], 0⟩, 0, 0, none, none, true, true, true⟩,
          true, [], 0, 0, 0, [], false, 0, 0, 0, [], false⟩ =
      ([], [120],
        ⟨⟨.READING_LINE, 0, some ⟨[], 0⟩, 0, 0, none, none, true, true, true⟩,
          true, [], 0, 0, 0, [], false, 0, 0, 0, [], false⟩, false) ∧
    newdataLoop 1000 [] [120]
        ⟨⟨.READING_LINE, 0, some ⟨[], 0⟩, 0, 0, none, none, true, true, true⟩,
          true, [], 0, 0, 0, [], false, 0, 0, 0, [], false⟩ false = none :=
  C13_newdata_loop_zero_capacity 1000 [] [120] _ rfl rfl rfl (by decide)

/-! ## Reads served by one callback invocation -/

theorem BufPtr.pokeList_off (p : BufPtr) (i : Nat) (bs : List Nat) :
    (p.pokeList i bs).off = p.off := by
  induction bs generalizing p i with
  | nil => rfl
  | cons b bs ih => simp [BufPtr.pokeList, ih, BufPtr.poke_off]

theorem BufPtr.pokeList_length (p : BufPtr) (i : Nat) (bs : List Nat) :
    (p.pokeList i bs).mem.length = p.mem.length := by
  induction bs generalizing p i with
  | nil => rfl
  | cons b bs ih => simp [BufPtr.pokeList, ih, BufPtr.poke_length]

theorem BufPtr.view_pokeList (p : BufPtr) (i : Nat) (bs : List Nat)
    (h : p.off + i + bs.length ≤ p.mem.length) :
    (p.pokeList i bs).view (i + bs.length) = p.view i ++ bs := by
  induction bs generalizing p i with
  | nil => simp [BufPtr.pokeList]
  | cons b bs ih =>
    have hlen : (b :: bs).length = bs.length + 1 := rfl
    rw [hlen] at h
    have e : i + (bs.length + 1) = i + 1 + bs.length := by omega
    rw [hlen, e, BufPtr.pokeList, ih (p.poke i b) (i + 1)
      (by rw [BufPtr.poke_off, BufPtr.poke_length]; omega),
      BufPtr.view_poke p i b (by omega)]
    simp

/-- A read call made by the application when the previous read has been
served: the previous read returns its byte count and the new one parks. -/
theorem appTurn_read_of_READ_OK (st : NetSockState) (data : Option BufPtr) (max : Nat) (c : Cx)
    (h : c.sock.state = .READ_OK) :
    appTurn (.read st data max) c =
      ({ c with sock := { c.sock with state := st, buf := data, max := max, len := 0 }
                sockSignals := c.sockSignals + 1
                rets := c.rets ++ [((c.sock.len : Int), c.sock.buf)] }, true) := by
  simp [appTurn, appReadReturn, h, sockReadFinish, sockReadEnter]

/-- The wait for a reader does nothing when a reader is parked. -/
theorem waitReader_of_reading (script : List AppTurn) (c : Cx)
    (h : c.sock.state = .READING ∨ c.sock.state = .READING_LINE) :
    waitReader script c false = (script, c, false) := by
  cases script <;> rcases h with h | h <;> simp [waitReader, h]

/-- The hand-off between two reads inside one callback invocation, for one pass
of the loop. -/
theorem newdataPass_handoff (st : NetSockState) (b : Option BufPtr) (m : Nat)
    (rest : List AppTurn) (data : List Nat) (c : Cx) (h : c.sock.state = .READ_OK) :
    newdataPass (.read st b m :: rest) data c =
      newdataPass rest data
        { c with sock := { c.sock with state := st, buf := b, max := m, len := 0 }
                 sockSignals := c.sockSignals + 1
                 rets := c.rets ++ [((c.sock.len : Int), c.sock.buf)] } := by
  have hw : waitReader (.read st b m :: rest) c false =
      waitReader rest
        { c with sock := { c.sock with state := st, buf := b, max := m, len := 0 }
                 sockSignals := c.sockSignals + 1
                 rets := c.rets ++ [((c.sock.len : Int), c.sock.buf)] } false := by
    rw [waitReader]
    simp [h, appTurn_read_of_READ_OK]
  simp only [newdataPass, hw]

/-- The hand-off between two reads inside one callback invocation. -/
theorem newdataLoop_handoff (fuel : Nat) (st : NetSockState) (b : Option BufPtr) (m : Nat)
    (rest : List AppTurn) (data : List Nat) (c : Cx) (h : c.sock.state = .READ_OK)
    (hd : 0 < data.length) :
    newdataLoop fuel (.read st b m :: rest) data c false =
      newdataLoop fuel rest data
        { c with sock := { c.sock with state := st, buf := b, max := m, len := 0 }
                 sockSignals := c.sockSignals + 1
                 rets := c.rets ++ [((c.sock.len : Int), c.sock.buf)] } false := by
  cases fuel with
  | zero => simp [newdataLoop, hd]
  | succ n =>
    rw [newdataLoop, newdataLoop]
    simp only [hd, true_and, if_true, newdataPass_handoff st b m rest data c h]

theorem newdataLoop_nil (fuel : Nat) (script : List AppTurn) (c : Cx) (t : Bool) :
    newdataLoop fuel script [] c t = some c := by
  cases fuel <;> simp [newdataLoop]

/-- The copy of the `READING` branch, with the `min` of the code written as a
`take`. -/
theorem tcpRead_spec (data : List Nat) (c : Cx) (p : BufPtr) (hbuf : c.sock.buf = some p) :
    tcpRead data c =
      (data.drop c.sock.max,
       { c with sock := { c.sock with len := (data.take c.sock.max).length,
                                      buf := some (p.pokeList 0 (data.take c.sock.max)),
                                      state := .READ_OK }
                uipSignals := c.uipSignals + 1 }) := by
  unfold tcpRead
  by_cases h : data.length > c.sock.max
  · have e : min c.sock.max data.length = c.sock.max := by omega
    simp [h, memcpy, hbuf, e]
  · have h1 : data.length ≤ c.sock.max := by omega
    have e : min c.sock.max data.length = data.length := by omega
    simp [h, memcpy, hbuf, e, List.take_of_length_le h1, List.drop_of_length_le h1]

theorem newdataPass_reading (script : List AppTurn) (data : List Nat) (c : Cx)
    (h : c.sock.state = .READING) :
    newdataPass script data c = (script, (tcpRead data c).1, (tcpRead data c).2, false) := by
  simp [newdataPass, waitReader_of_reading script c (Or.inl h), h]

theorem retBytes_pokeList (p : BufPtr) (bs : List Nat) (h : p.off + bs.length ≤ p.mem.length) :
    retBytes ((bs.length : Int), some (p.pokeList 0 bs)) = bs := by
  have hv := BufPtr.view_pokeList p 0 bs (by omega)
  simp only [Nat.zero_add, BufPtr.view_zero, List.nil_append] at hv
  simp [retBytes, hv]

/-- The new-data loop over a reader parked in `READING` and the reads the
application makes next: every read is handed the next bytes of the segment. -/
theorem newdataLoop_reads (reads : List (BufPtr × Nat)) :
    ∀ (data : List Nat) (c : Cx) (p : BufPtr) (fuel : Nat) (extra : List AppTurn),
      c.sock.state = .READING → c.sock.buf = some p → p.off + c.sock.max ≤ p.mem.length →
      (∀ r ∈ reads, r.1.off + r.2 ≤ r.1.mem.length) →
      ((c.sock.max :: reads.map Prod.snd).dropLast).sum < data.length →
      data.length ≤ (c.sock.max :: reads.map Prod.snd).sum →
      reads.length + 1 ≤ fuel →
      ∃ c', newdataLoop fuel
              (reads.map (fun r => AppTurn.read .READING (some r.1) r.2) ++ extra) data c false
            = some c' ∧
        c'.sock.state = .READ_OK ∧ c'.aborts = c.aborts ∧
        (c'.rets ++ [((c'.sock.len : Int), c'.sock.buf)]).map retBytes =
          c.rets.map retBytes ++ readChunks (c.sock.max :: reads.map Prod.snd) data ∧
        (c'.rets ++ [((c'.sock.len : Int), c'.sock.buf)]).map Prod.fst =
          c.rets.map Prod.fst ++
            (readChunks (c.sock.max :: reads.map Prod.snd) data).map (fun x => (x.length : Int)) := by
  induction reads with
  | nil =>
    intro data c p fuel extra hst hbuf hcap _ hlo hhi hfuel
    simp only [List.map_nil, List.dropLast_single, List.sum_nil, List.sum_cons, Nat.add_zero]
      at hlo hhi
    obtain ⟨f, rfl⟩ : ∃ f, fuel = f + 1 := ⟨fuel - 1, by simp at hfuel; omega⟩
    have hpass := newdataPass_reading extra data c hst
    rw [tcpRead_spec data c p hbuf] at hpass
    refine ⟨{ c with sock := { c.sock with len := (data.take c.sock.max).length,
                                           buf := some (p.pokeList 0 (data.take c.sock.max)),
                                           state := .READ_OK }
                     uipSignals := c.uipSignals + 1 }, ?_, ?_, ?_, ?_, ?_⟩
    · rw [newdataLoop]
      simp only [hlo, true_and, if_true, hpass, List.map_nil, List.nil_append,
        List.drop_of_length_le hhi]
      exact newdataLoop_nil _ _ _ _
    · rfl
    · rfl
    · have hb : p.off + (data.take c.sock.max).length ≤ p.mem.length := by
        simp only [List.length_take]; omega
      simp only [readChunks, List.map_append, List.map_cons, List.map_nil,
        retBytes_pokeList p _ hb]
    · simp only [readChunks, List.map_append, List.map_cons, List.map_nil]
  | cons r rs ih =>
    intro data c p fuel extra hst hbuf hcap hreads hlo hhi hfuel
    obtain ⟨f, rfl⟩ : ∃ f, fuel = f + 1 := ⟨fuel - 1, by simp at hfuel; omega⟩
    simp only [List.map_cons, List.dropLast_cons₂, List.sum_cons] at hlo hhi
    have hpass := newdataPass_reading
      (List.map (fun r => AppTurn.read .READING (some r.1) r.2) (r :: rs) ++ extra) data c hst
    rw [tcpRead_spec data c p hbuf] at hpass
    have hdrop : 0 < (data.drop c.sock.max).length := by
      simp only [List.length_drop]; omega
    obtain ⟨c', h1, h2, h3, h4, h5⟩ := ih (data.drop c.sock.max)
      { c with sock := { c.sock with len := 0, buf := some r.1, state := .READING, max := r.2 }
               uipSignals := c.uipSignals + 1
               sockSignals := c.sockSignals + 1
               rets := c.rets ++ [(((data.take c.sock.max).length : Int),
                        some (p.pokeList 0 (data.take c.sock.max)))] }
      r.1 f extra rfl rfl (hreads r (by simp))
      (fun x hx => hreads x (by simp [hx]))
      (by simp only [List.length_drop]; omega)
      (by simp only [List.length_drop, List.sum_cons]; omega)
      (by simp at hfuel; omega)
    refine ⟨c', ?_, h2, h3, ?_, ?_⟩
    · simp only [List.map_cons, List.cons_append] at hpass ⊢
      rw [newdataLoop]
      simp only [show 0 < data.length by omega, true_and, if_true, hpass]
      rw [newdataLoop_handoff f .READING (some r.1) r.2 _ _ _ rfl hdrop]
      exact h1
    · have hb : p.off + (data.take c.sock.max).length ≤ p.mem.length := by
        simp only [List.length_take]; omega
      rw [h4]
      simp only [readChunks, List.map_append, List.map_cons, List.map_nil,
        retBytes_pokeList p _ hb, List.append_assoc, List.singleton_append]
    · rw [h5]
      simp only [readChunks, List.map_append, List.map_cons, List.map_nil,
        List.append_assoc, List.singleton_append]

theorem readChunks_flatten (caps : List Nat) :
    ∀ seg : List Nat, seg.length ≤ caps.sum → (readChunks caps seg).flatten = seg := by
  induction caps with
  | nil =>
    intro seg h
    have : seg = [] := List.length_eq_zero.mp (by simpa using h)
    simp [readChunks, this]
  | cons m ms ih =>
    intro seg h
    have h2 : (seg.drop m).length ≤ ms.sum := by
      simp only [List.length_drop]
      simp only [List.sum_cons] at h
      omega
    simp [readChunks, ih (seg.drop m) h2]

theorem appReadReturn_of_READ_OK (c : Cx) (h : c.sock.state = .READ_OK) :
    (appReadReturn c).rets = c.rets ++ [((c.sock.len : Int), c.sock.buf)] := by
  simp [appReadReturn, h, sockReadFinish]

theorem netTcpAppcallMutex_newdata (fuel : Nat) (seg : List Nat) (mss : Nat)
    (script : List AppTurn) (c : Cx) :
    netTcpAppcallMutex fuel (newdataEvent seg mss) script c = newdataLoop fuel script seg c false := by
  unfold netTcpAppcallMutex newdataEvent
  simp only [Bool.false_eq_true, if_false, if_true]
  cases newdataLoop fuel script seg c false <;> rfl

theorem throughNewline_append_LF (a b : List Nat) (h : LF ∉ a) :
    throughNewline (a ++ LF :: b) = a ++ [LF] := by
  induction a with
  | nil => simp [throughNewline]
  | cons x xs ih =>
    have hx : x ≠ LF := fun e => h (by simp [e])
    have hxs : LF ∉ xs := fun e => h (by simp [e])
    simp [throughNewline, hx, ih hxs]

theorem stripCR_line (body more : List Nat) :
    stripCR (body ++ LF :: more) = stripCR body ++ LF :: stripCR more := by
  have hne : LF ≠ CR := by decide
  rw [stripCR_append, stripCR_cons_ne LF more hne]

theorem not_mem_stripCR (body : List Nat) (h : LF ∉ body) : LF ∉ stripCR body := by
  intro hm
  exact h (List.mem_filter.mp hm).1

/-- The bytes a `read_line` is to store of a segment that starts with a whole
line which fits the capacity: the line without its carriage returns. -/
theorem lineSpec_line (m : Nat) (body more : List Nat) (h : LF ∉ body)
    (hfit : (stripCR (body ++ [LF])).length ≤ m) :
    lineSpec m (body ++ LF :: more) = stripCR (body ++ [LF]) := by
  unfold lineSpec
  rw [stripCR_line, throughNewline_append_LF _ _ (not_mem_stripCR body h)]
  rw [stripCR_line] at hfit
  rw [stripCR_line]
  simp only [stripCR, List.filter_nil] at hfit ⊢
  exact List.take_of_length_le hfit

/-- The line loop stops right behind the first line of the data when the line
fits the room left in the buffer. -/
theorem lineLoop_rest (body more : List Nat) :
    ∀ s : NetSock, LF ∉ body → s.len + (stripCR (body ++ [LF])).length ≤ s.max →
      (lineLoop (body ++ LF :: more) s).1 = more := by
  induction body with
  | nil =>
    intro s _ hfit
    have hne : LF ≠ CR := by decide
    have hlt : s.len < s.max := by
      simp [stripCR, hne] at hfit
      omega
    simp [lineLoop, hlt, hne]
  | cons ch body ih =>
    intro s hmem hfit
    have hch : ch ≠ LF := fun e => hmem (by simp [e])
    have hb : LF ∉ body := fun e => hmem (by simp [e])
    have hpos : 1 ≤ (stripCR (body ++ [LF])).length := by
      rw [stripCR_line]
      simp only [List.length_append, List.length_cons]
      omega
    by_cases hcr : ch = CR
    · subst hcr
      have hfit2 : s.len + (stripCR (body ++ [LF])).length ≤ s.max := by
        simpa [stripCR_cons_CR] using hfit
      have hlt : s.len < s.max := by omega
      simp only [List.cons_append, lineLoop, hlt, if_true]
      exact ih s hb hfit2
    · have hfit2 : s.len + 1 + (stripCR (body ++ [LF])).length ≤ s.max := by
        rw [List.cons_append, stripCR_cons_ne ch _ hcr] at hfit
        simp only [List.length_cons] at hfit
        omega
      have hlt : s.len < s.max := by omega
      simp only [List.cons_append, lineLoop, hlt, hcr, hch, if_true, if_false]
      exact ih _ hb hfit2

theorem tcpReadLine_fst (data : List Nat) (c : Cx) :
    (tcpReadLine data c).1 = (lineLoop data c.sock).1 := by
  unfold tcpReadLine
  simp only
  split <;> rfl

/-- One pass of the new-data loop over a reader parked in `READING_LINE` when
the data starts with a whole line that fits the capacity. -/
theorem newdataPass_line (script : List AppTurn) (body more : List Nat) (c : Cx) (p : BufPtr)
    (hst : c.sock.state = .READING_LINE) (hlen : c.sock.len = 0) (hbuf : c.sock.buf = some p)
    (hcap : p.off + c.sock.max ≤ p.mem.length) (hbody : LF ∉ body)
    (hfit : (stripCR (body ++ [LF])).length ≤ c.sock.max) :
    ∃ q : BufPtr, q.view (stripCR (body ++ [LF])).length = stripCR (body ++ [LF]) ∧
      newdataPass script (body ++ LF :: more) c =
        (script, more,
          { c with sock := { c.sock with buf := some q, len := (stripCR (body ++ [LF])).length,
                                         state := .READ_OK }
                   uipSignals := c.uipSignals + 1 }, false) := by
  have hpos : 1 ≤ (stripCR (body ++ [LF])).length := by
    rw [stripCR_line]
    simp only [List.length_append, List.length_cons]
    omega
  obtain ⟨q, _, _, h3, h4⟩ := tcpReadLine_spec (body ++ LF :: more) c p hlen (by omega) hbuf hcap
  rw [lineSpec_line c.sock.max body more hbody hfit] at h3 h4
  have hlast : (stripCR (body ++ [LF])).getLast? = some LF := by
    rw [stripCR_line]
    simp [stripCR]
  rw [if_pos (Or.inl hlast)] at h4
  refine ⟨q, h3, ?_⟩
  have h1 : (tcpReadLine (body ++ LF :: more) c).1 = more := by
    rw [tcpReadLine_fst]
    exact lineLoop_rest body more c.sock hbody (by omega)
  simp only [newdataPass, waitReader_of_reading script c (Or.inr hst), hst, h1, h4]
  simp

/-- The new-data loop over a reader parked in `READING_LINE` and the
`read_line` calls the application makes next, on a segment made of whole lines
that fit the capacity: every call is handed the next line. -/
theorem newdataLoop_lines (m : Nat) (rest : List (BufPtr × List Nat)) :
    ∀ (body : List Nat) (c : Cx) (p : BufPtr) (fuel : Nat) (extra : List AppTurn),
      c.sock.state = .READING_LINE → c.sock.len = 0 → c.sock.max = m → c.sock.buf = some p →
      p.off + m ≤ p.mem.length → LF ∉ body → (stripCR (body ++ [LF])).length ≤ m →
      (∀ r ∈ rest, r.1.off + m ≤ r.1.mem.length ∧ r.2.getLast? = some LF ∧
        LF ∉ r.2.dropLast ∧ (stripCR r.2).length ≤ m) →
      rest.length + 1 ≤ fuel →
      ∃ c', newdataLoop fuel
              (rest.map (fun r => AppTurn.read .READING_LINE (some r.1) m) ++ extra)
              ((body ++ [LF]) ++ (rest.map Prod.snd).flatten) c false = some c' ∧
        c'.sock.state = .READ_OK ∧ c'.aborts = c.aborts ∧
        (c'.rets ++ [((c'.sock.len : Int), c'.sock.buf)]).map retBytes =
          c.rets.map retBytes ++ ((body ++ [LF]) :: rest.map Prod.snd).map stripCR ∧
        (c'.rets ++ [((c'.sock.len : Int), c'.sock.buf)]).map Prod.fst =
          c.rets.map Prod.fst ++
            ((body ++ [LF]) :: rest.map Prod.snd).map (fun x => ((stripCR x).length : Int)) := by
  induction rest with
  | nil =>
    intro body c p fuel extra hst hlen hmax hbuf hcap hbody hfit _ hfuel
    obtain ⟨f, rfl⟩ : ∃ f, fuel = f + 1 := ⟨fuel - 1, by simp at hfuel; omega⟩
    obtain ⟨q, hq, hpass⟩ := newdataPass_line extra body [] c p hst hlen hbuf
      (by omega) hbody (by omega)
    refine ⟨{ c with sock := { c.sock with buf := some q, len := (stripCR (body ++ [LF])).length,
                                           state := .READ_OK }
                     uipSignals := c.uipSignals + 1 }, ?_, rfl, rfl, ?_, ?_⟩
    · simp only [List.map_nil, List.flatten_nil, List.append_nil, List.nil_append]
      rw [newdataLoop]
      have hd : 0 < (body ++ [LF]).length := by simp
      simp only [hd, true_and, if_true, hpass]
      exact newdataLoop_nil _ _ _ _
    · simp [retBytes, hq]
    · simp
  | cons r rs ih =>
    intro body c p fuel extra hst hlen hmax hbuf hcap hbody hfit hrest hfuel
    obtain ⟨f, rfl⟩ : ∃ f, fuel = f + 1 := ⟨fuel - 1, by simp at hfuel; omega⟩
    obtain ⟨hr1, hr2, hr3, hr4⟩ := hrest r (by simp)
    have hr : r.2.dropLast ++ [LF] = r.2 := List.dropLast_append_getLast? LF (by simp [hr2])
    obtain ⟨q, hq, hpass⟩ := newdataPass_line
      (List.map (fun r => AppTurn.read .READING_LINE (some r.1) m) (r :: rs) ++ extra)
      body (r.2 ++ (rs.map Prod.snd).flatten) c p hst hlen hbuf (by omega) hbody (by omega)
    have hd2 : 0 < (r.2 ++ (rs.map Prod.snd).flatten).length := by
      rw [← hr]; simp
    obtain ⟨c', h1, h2, h3, h4, h5⟩ := ih r.2.dropLast
      { c with sock := { c.sock with buf := some r.1, len := 0, state := .READING_LINE, max := m }
               uipSignals := c.uipSignals + 1
               sockSignals := c.sockSignals + 1
               rets := c.rets ++ [(((stripCR (body ++ [LF])).length : Int), some q)] }
      r.1 f extra rfl rfl rfl rfl hr1 hr3 (by rw [hr]; exact hr4)
      (fun x hx => hrest x (by simp [hx])) (by simp at hfuel; omega)
    rw [hr] at h1 h4 h5
    refine ⟨c', ?_, h2, h3, ?_, ?_⟩
    · simp only [List.map_cons, List.cons_append, List.flatten_cons, List.append_assoc,
        List.singleton_append, List.nil_append] at hpass ⊢
      rw [newdataLoop]
      have hd : 0 < (body ++ LF :: (r.2 ++ (rs.map Prod.snd).flatten)).length := by simp
      simp only [hd, true_and, if_true, hpass]
      rw [newdataLoop_handoff f .READING_LINE (some r.1) m _ _ _ rfl hd2]
      exact h1
    · rw [h4]
      simp [retBytes, hq]
    · rw [h5]
      simp

theorem readWait_of_ne (st : NetSockState) (parks : List (Park Cx)) (c : Cx) (t : Bool)
    (h : c.sock.state ≠ st) : readWait st parks c t = some (c, t) := by
  cases parks <;> simp [readWait, h]

theorem readWait_timedOut (st : NetSockState) (parks : List (Park Cx)) (c : Cx) :
    readWait st parks c true = some (c, true) := by
  cases parks <;> simp [readWait]

theorem sockReadEnter_busy (c : Cx) (st : NetSockState) (data : Option BufPtr) (max : Nat)
    (h : c.sock.state = .BUSY) :
    sockReadEnter c st data max =
      .parked { c with sock := { c.sock with state := st, buf := data, max := max, len := 0 }
                       sockSignals := c.sockSignals + 1 } := by
  simp [sockReadEnter, h]

theorem sockReadFinish_timeout (st : NetSockState) (a : Cx)
    (hst : st = .READING ∨ st = .READING_LINE) (h : a.sock.state = st) :
    sockReadFinish st true a =
      .done NET_SOCK_TIMEOUT { a with sock := { a.sock with state := .BUSY } } := by
  rcases hst with hst | hst <;> simp [sockReadFinish, h, hst]

/-- A read on a BUSY socket that is parked when a callback pass copies a
segment returns the number of bytes copied. -/
theorem netSockRead_served (c : Cx) (p : BufPtr) (max : Nat) (seg : List Nat)
    (more : List (Park Cx)) (h : c.sock.state = .BUSY) (hn : 0 < seg.length) :
    netSockRead c (some p) max (firstPass seg :: more) =
      .done (((seg.take max).length : Nat) : Int)
        { c with sock := { c.sock with state := .BUSY, buf := some (p.pokeList 0 (seg.take max)),
                                       max := max, len := (seg.take max).length }
                 sockSignals := c.sockSignals + 1
                 uipSignals := c.uipSignals + 1 } := by
  unfold netSockRead sockReadInternal
  rw [sockReadEnter_busy c .READING (some p) max h]
  simp only [readWait, true_and, if_true, Bool.not_true, firstPass, hn]
  rw [newdataPass_reading [] seg _ rfl, tcpRead_spec seg _ p rfl]
  simp only
  rw [readWait_of_ne _ _ _ _ (by simp)]
  simp [sockReadFinish]

/-- C5: a read on a BUSY socket that is parked when the callback processes an
event with the new-data and the closed flag (a segment of 1 to max bytes that
also closes the connection) returns EOF although the callback has copied the
whole payload into the reader's buffer and set len to its length: the closed
branch overwrites READ_OK with PEER_CLOSED before the reader can run. -/
theorem C5_data_lost_on_close (c : Cx) (p : BufPtr) (max : Nat) (seg : List Nat)
    (mss fuel : Nat) (more : List (Park Cx))
    (hbusy : c.sock.state = .BUSY) (hn : 0 < seg.length) (hfit : seg.length ≤ max)
    (hcap : p.off + max ≤ p.mem.length) :
    ∃ c' : Cx, ∃ q : BufPtr,
      netSockRead c (some p) max (callback (fuel + 1) (dataClosedEvent seg mss) [] :: more) =
        .done NET_SOCK_EOF c' ∧
      c'.sock.state = .PEER_CLOSED ∧ c'.rets = c.rets ∧
      c'.sock.buf = some q ∧ c'.sock.len = seg.length ∧ q.view seg.length = seg := by
  have htake : seg.take max = seg := List.take_of_length_le hfit
  have hcb : ∀ x : Cx, x.sock.state = .READING → x.sock.buf = some p → x.sock.max = max →
      netTcpAppcallMutex (fuel + 1) (dataClosedEvent seg mss) [] x =
        some (netAppcallClose
          { x with sock := { x.sock with len := seg.length, buf := some (p.pokeList 0 seg),
                                         state := .READ_OK }
                   uipSignals := x.uipSignals + 1 } .PEER_CLOSED) := by
    intro x hx hb hm
    have hpass := newdataPass_reading [] seg x hx
    rw [tcpRead_spec seg x p hb, hm, htake, List.drop_of_length_le hfit] at hpass
    unfold netTcpAppcallMutex dataClosedEvent
    simp only [Bool.false_eq_true, if_false, if_true]
    rw [newdataLoop]
    simp only [hn, true_and, if_true, hpass, newdataLoop_nil]
  have hv := BufPtr.view_pokeList p 0 seg (by omega)
  simp only [Nat.zero_add, BufPtr.view_zero, List.nil_append] at hv
  have hread : netSockRead c (some p) max
      (callback (fuel + 1) (dataClosedEvent seg mss) [] :: more) =
        .done NET_SOCK_EOF
          (netAppcallClose
            { c with sock := { c.sock with state := .READ_OK, buf := some (p.pokeList 0 seg),
                                           max := max, len := seg.length }
                     sockSignals := c.sockSignals + 1
                     uipSignals := c.uipSignals + 1 } .PEER_CLOSED) := by
    unfold netSockRead sockReadInternal
    rw [sockReadEnter_busy c .READING (some p) max hbusy]
    simp only [readWait, true_and, if_true, Bool.not_true, callback]
    rw [hcb _ rfl rfl rfl]
    simp only [Option.getD_some]
    rw [readWait_of_ne _ _ _ _ (by simp [netAppcallClose])]
    simp only [sockReadFinish, netAppcallClose, if_true]
  exact ⟨_, _, hread, rfl, rfl, rfl, rfl, hv⟩

/-- C5 at a read of capacity 4 and a one-byte segment that closes the
connection: the byte is in the buffer and the read returns EOF. -/
theorem C5_data_lost_on_close_witness :
    ∃ c' : Cx, ∃ q : BufPtr,
      netSockRead busyCx (some ⟨List.replicate 4 0, 0⟩) 4
          [callback 1 (dataClosedEvent [120] 1460) []] = .done NET_SOCK_EOF c' ∧
      c'.sock.state = .PEER_CLOSED ∧ c'.rets = [] ∧
      c'.sock.buf = some q ∧ c'.sock.len = 1 ∧ q.view 1 = [120] :=
  C5_data_lost_on_close busyCx ⟨List.replicate 4 0, 0⟩ 4 [120] 1460 0 [] rfl (by decide)
    (by decide) (by decide)

/-! ## Segmentation of a write -/

theorem callback_poll (mss : Nat) : callback 0 (pollEvent mss) [] = ⟨tcpPoll, true⟩ := by
  simp [callback, netTcpAppcallMutex, pollEvent]

theorem callback_acked (mss : Nat) : callback 0 (ackedEvent mss) [] = ⟨tcpAcked mss, true⟩ := by
  simp [callback, netTcpAppcallMutex, ackedEvent]

theorem waitWhile_cons_busy {σ : Type} (busy : σ → Bool) (p : Park σ) (ps : List (Park σ))
    (s : σ) (h : busy s = true) : waitWhile busy (p :: ps) s = waitWhile busy ps (p.act s) := by
  simp [waitWhile, h]

/-- A wait that is answered by the same act again and again ends at the first
iterate that ends the wait. -/
theorem waitWhile_replicate {σ : Type} (busy : σ → Bool) (f : σ → σ) (b : Bool)
    (rest : List (Park σ)) (n : Nat) :
    ∀ s : σ, (∀ j, j < n → busy (f^[j] s) = true) → busy (f^[n] s) = false →
      waitWhile busy (List.replicate n ⟨f, b⟩ ++ rest) s = some (f^[n] s) := by
  induction n with
  | zero =>
    intro s _ h0
    simp only [Function.iterate_zero, id_eq] at h0
    cases rest <;> simp [waitWhile, h0]
  | succ n ih =>
    intro s hlt hn
    have h0 : busy s = true := hlt 0 (by omega)
    simp only [List.replicate_succ, List.cons_append, waitWhile, h0, if_true,
      Function.iterate_succ_apply]
    apply ih
    · intro j hj
      have := hlt (j + 1) (by omega)
      simpa only [Function.iterate_succ_apply] using this
    · simpa only [Function.iterate_succ_apply] using hn

theorem tcpAcked_more (m : Nat) (x : Cx) (hst : x.sock.state = .WRITING) (hgt : m < x.sock.len) :
    tcpAcked m x =
      { x with sock := { x.sock with buf := x.sock.buf.map (fun p => p.add m),
                                     len := x.sock.len - m }
               sent := x.sent ++ [(x.sock.buf.map (fun p => p.add m), x.sock.len - m)] } := by
  simp [tcpAcked, hst, Nat.not_le.mpr hgt]

theorem tcpAcked_last (m : Nat) (x : Cx) (hst : x.sock.state = .WRITING) (hle : x.sock.len ≤ m) :
    tcpAcked m x =
      { x with sock := { x.sock with len := 0, state := .WRITE_OK }
               uipSignals := x.uipSignals + 1 } := by
  simp [tcpAcked, hst, hle]

/-- The record of a write after `j` acknowledgements none of which completes
the write. -/
theorem tcpAcked_iterate (m : Nat) (x : Cx) (p : BufPtr) (l : Nat)
    (hst : x.sock.state = .WRITING) (hbuf : x.sock.buf = some p) (hlen : x.sock.len = l) :
    ∀ j, (j = 0 ∨ j * m < l) →
      ((tcpAcked m)^[j] x).sock.state = .WRITING ∧
      ((tcpAcked m)^[j] x).sock.buf = some (p.add (j * m)) ∧
      ((tcpAcked m)^[j] x).sock.len = l - j * m ∧
      ((tcpAcked m)^[j] x).sent =
        x.sent ++ (List.range j).map (fun k => (some (p.add ((k + 1) * m)), l - (k + 1) * m)) := by
  intro j
  induction j with
  | zero =>
    intro _
    refine ⟨hst, ?_, ?_, ?_⟩
    · simp [hbuf, BufPtr.add]
    · simp [hlen]
    · simp
  | succ j ih =>
    intro h
    have hj : (j + 1) * m < l := by
      rcases h with h | h
      · omega
      · exact h
    have hsm : (j + 1) * m = j * m + m := Nat.succ_mul j m
    obtain ⟨h1, h2, h3, h4⟩ := ih (by right; omega)
    have hgt : m < ((tcpAcked m)^[j] x).sock.len := by rw [h3]; omega
    have hptr : (p.add (j * m)).add m = p.add ((j + 1) * m) := by
      simp [BufPtr.add, hsm, Nat.add_assoc]
    have hrem : l - j * m - m = l - (j + 1) * m := by omega
    rw [Function.iterate_succ_apply', tcpAcked_more m _ h1 hgt]
    simp only [h1, h2, h3, h4, Option.map_some', hptr, hrem, List.range_succ, List.map_append,
      List.map_cons, List.map_nil, List.append_assoc, and_self]

/-- The number of segments of a write of `len` bytes at segment size `m`. -/
theorem segments_bounds (len m : Nat) (hm : 0 < m) :
    len ≤ max 1 ((len + m - 1) / m) * m ∧
      ∀ j, j < max 1 ((len + m - 1) / m) → j = 0 ∨ j * m < len := by
  have h1 : (len + m - 1) / m * m ≤ len + m - 1 := Nat.div_mul_le_self _ _
  have h2 : len + m - 1 < (len + m - 1) / m * m + m := Nat.lt_div_mul_add hm
  constructor
  · have h3 : (len + m - 1) / m * m ≤ max 1 ((len + m - 1) / m) * m :=
      Nat.mul_le_mul_right m (le_max_right _ _)
    omega
  · intro j hj
    by_cases h0 : j = 0
    · exact Or.inl h0
    · right
      have hd : max 1 ((len + m - 1) / m) = (len + m - 1) / m := by
        rcases Nat.lt_or_ge 1 ((len + m - 1) / m) with h | h
        · exact max_eq_right (by omega)
        · rw [max_eq_left h] at hj
          omega
      rw [hd] at hj
      have h4 : (j + 1) * m ≤ (len + m - 1) / m * m := Nat.mul_le_mul_right m (by omega)
      have h5 : (j + 1) * m = j * m + m := Nat.succ_mul j m
      omega

theorem BufPtr.add_zero (p : BufPtr) : p.add 0 = p := by
  cases p; rfl

theorem sockWriteEnter_parked (c c0 : Cx) (data : Option BufPtr) (len : Nat)
    (h : sockWriteEnter c data len = .parked c0) :
    c.sock.state = .BUSY ∧
      c0 = { c with sock := { c.sock with state := .WRITING, buf := data, len := len }
                    dataToSend := true
                    giant := c.giant + 1 } := by
  unfold sockWriteEnter at h
  split_ifs at h with h1 h2 h3
  injection h with h
  exact ⟨not_not.mp h3, h.symm⟩

/-- C4: for a write of len bytes that has parked (state WRITING) and segment
size m > 0, over the events "one poll, then acknowledgements only", with
N = max 1 (ceil (len / m)): the state is still WRITING after the poll and fewer
than N acknowledgements, it is WRITE_OK after the N-th, the callback has then
called uip_send exactly N times, the k-th time at offset (k-1)*m of the
caller's buffer with length len - (k-1)*m, and sockWrite returns len leaving
BUSY.  N is ceil (len / m) whenever len is not 0. -/
theorem C4_write_segments (c c0 : Cx) (p : BufPtr) (len m : Nat) (more : List (Park Cx))
    (henter : sockWriteEnter c (some p) len = .parked c0) (hm : 0 < m) :
    (∀ j, j < max 1 ((len + m - 1) / m) →
      ((tcpAcked m)^[j] (tcpPoll c0)).sock.state = .WRITING) ∧
    ((tcpAcked m)^[max 1 ((len + m - 1) / m)] (tcpPoll c0)).sock.state = .WRITE_OK ∧
    ((tcpAcked m)^[max 1 ((len + m - 1) / m)] (tcpPoll c0)).sent =
      c.sent ++ (List.range (max 1 ((len + m - 1) / m))).map
        (fun k => (some (p.add (k * m)), len - k * m)) ∧
    sockWrite c (some p) len
        (callback 0 (pollEvent m) [] ::
          (List.replicate (max 1 ((len + m - 1) / m)) (callback 0 (ackedEvent m) []) ++ more)) =
      .done (len : Int)
        { (tcpAcked m)^[max 1 ((len + m - 1) / m)] (tcpPoll c0) with
          sock := { ((tcpAcked m)^[max 1 ((len + m - 1) / m)] (tcpPoll c0)).sock with
                    state := .BUSY } } ∧
    (0 < len → max 1 ((len + m - 1) / m) = (len + m - 1) / m) := by
  obtain ⟨hbusy, hc0⟩ := sockWriteEnter_parked c c0 (some p) len henter
  obtain ⟨hF1, hF2⟩ := segments_bounds len m hm
  obtain ⟨n, hn⟩ : ∃ n, max 1 ((len + m - 1) / m) = n + 1 :=
    ⟨max 1 ((len + m - 1) / m) - 1, by have := le_max_left 1 ((len + m - 1) / m); omega⟩
  rw [hn] at hF1 hF2 ⊢
  have hpst : (tcpPoll c0).sock.state = .WRITING := by rw [hc0]; simp [tcpPoll]
  have hpbuf : (tcpPoll c0).sock.buf = some p := by rw [hc0]; simp [tcpPoll]
  have hplen : (tcpPoll c0).sock.len = len := by rw [hc0]; simp [tcpPoll]
  have hpsent : (tcpPoll c0).sent = c.sent ++ [(some p, len)] := by rw [hc0]; simp [tcpPoll]
  have hit := tcpAcked_iterate m (tcpPoll c0) p len hpst hpbuf hplen
  have hwriting : ∀ j, j < n + 1 → ((tcpAcked m)^[j] (tcpPoll c0)).sock.state = .WRITING :=
    fun j hj => (hit j (hF2 j hj)).1
  obtain ⟨h1, h2, h3, h4⟩ := hit n (hF2 n (by omega))
  have hsm : (n + 1) * m = n * m + m := Nat.succ_mul n m
  have hlast : (tcpAcked m)^[n + 1] (tcpPoll c0) =
      { (tcpAcked m)^[n] (tcpPoll c0) with
        sock := { ((tcpAcked m)^[n] (tcpPoll c0)).sock with len := 0, state := .WRITE_OK }
        uipSignals := ((tcpAcked m)^[n] (tcpPoll c0)).uipSignals + 1 } := by
    rw [Function.iterate_succ_apply']
    exact tcpAcked_last m _ h1 (by rw [h3]; omega)
  have hok : ((tcpAcked m)^[n + 1] (tcpPoll c0)).sock.state = .WRITE_OK := by rw [hlast]
  refine ⟨hwriting, hok, ?_, ?_, ?_⟩
  · rw [hlast]
    simp only [h4, hpsent, List.append_assoc, List.singleton_append]
    rw [List.range_succ_eq_map]
    simp [BufPtr.add_zero, Function.comp_def]
  · unfold sockWrite
    rw [henter]
    simp only [callback_poll, callback_acked]
    have hbusy0 : decide (c0.sock.state = .WRITING) = true := by rw [hc0]; simp
    rw [waitWhile_cons_busy (fun x => decide (x.sock.state = .WRITING)) _ _ c0 hbusy0]
    rw [waitWhile_replicate (fun x => decide (x.sock.state = .WRITING)) (tcpAcked m) true more
      (n + 1) (tcpPoll c0)
      (fun j hj => by show decide (_ = _) = true; rw [hwriting j hj]; rfl)
      (by show decide (_ = _) = false; rw [hok]; rfl)]
    simp only [sockWriteFinish, hok, reduceCtorEq, if_false, if_true]
  · intro hpos
    have h5 : 1 ≤ (len + m - 1) / m := (Nat.one_le_div_iff hm).mpr (by omega)
    rw [← hn]
    exact max_eq_right h5

/-- C4 at len = 3000 and m = 1460: three sends, at offsets 0, 1460 and 2920
with lengths 3000, 1540 and 80, and sockWrite returns 3000 after the third
acknowledgement. -/
theorem C4_write_segments_witness :
    ∃ c' : Cx,
      sockWrite busyCx (some ⟨[], 0⟩) 3000
          [callback 0 (pollEvent 1460) [], callback 0 (ackedEvent 1460) [],
           callback 0 (ackedEvent 1460) [], callback 0 (ackedEvent 1460) []] =
        .done 3000 c' ∧
      c'.sock.state = .BUSY ∧
      c'.sent = [(some ⟨[], 0⟩, 3000), (some ⟨[], 1460⟩, 1540), (some ⟨[], 2920⟩, 80)] := by
  obtain ⟨_, _, h3, h4, _⟩ :=
    C4_write_segments busyCx _ ⟨[], 0⟩ 3000 1460 [] rfl (by decide)
  have hN : max 1 ((3000 + 1460 - 1) / 1460) = 3 := by decide
  rw [hN] at h3 h4
  exact ⟨_, h4, rfl, h3⟩

/-- A write of no bytes: the callback calls uip_send once (with length 0) and
the write completes at the first acknowledgement, while ceil (0 / 1460) is 0. -/
theorem C4_zero_length_counterexample :
    ∃ c' : Cx,
      sockWrite busyCx (some ⟨[], 0⟩) 0
          [callback 0 (pollEvent 1460) [], callback 0 (ackedEvent 1460) []] = .done 0 c' ∧
      c'.sent = [(some ⟨[], 0⟩, 0)] ∧ c'.sent.length ≠ (0 + 1460 - 1) / 1460 :=
  ⟨_, rfl, rfl, by decide⟩

/-! ## The bitmap of the socket table -/

theorem bittabAlloc_eq_none (used : List Bool) :
    bittabAlloc used = none ↔ used.count false = 0 := by
  induction used with
  | nil => simp [bittabAlloc]
  | cons b bs ih =>
    cases b
    · simp [bittabAlloc]
    · simp [bittabAlloc, ih]

theorem bittabAlloc_some (used : List Bool) :
    ∀ i, bittabAlloc used = some i →
      i < used.length ∧ used.getD i true = false ∧
        (used.set i true).count false + 1 = used.count false := by
  induction used with
  | nil => intro i h; simp [bittabAlloc] at h
  | cons b bs ih =>
    intro i h
    cases b
    · simp only [bittabAlloc, if_true, Option.some.injEq] at h
      subst h
      simp
    · simp only [bittabAlloc, Bool.true_eq_false, if_false, Option.map_eq_some'] at h
      obtain ⟨j, hj, rfl⟩ := h
      obtain ⟨h1, h2, h3⟩ := ih j hj
      refine ⟨by simpa using h1, by simpa using h2, ?_⟩
      simpa using h3

/-- What a successful allocation followed by the free of the record leaves of
the bitmap and the registry. -/
theorem allocFree_of_some (st : NetSockState) (w w1 : World) (file : Nat)
    (h : netSockAlloc w st = (some file, w1)) :
    (allocFree st w).used = w.used.set file true ∧
      (allocFree st w).filesFree = w.filesFree ∧
      (allocFree st w).freed = w.freed ++ [file] := by
  unfold allocFree
  rw [h]
  unfold netSockAlloc at h
  split_ifs at h with h0
  · simp at h
  · cases hb : bittabAlloc w.used with
    | none => simp [hb] at h
    | some slot =>
      simp only [hb, Prod.mk.injEq, Option.some.injEq] at h
      obtain ⟨rfl, rfl⟩ := h
      refine ⟨rfl, ?_, rfl⟩
      simp only [netSockFree]
      omega

theorem netSockAlloc_of_some (st : NetSockState) (w : World) (file : Nat)
    (hfiles : 0 < w.filesFree) (hb : bittabAlloc w.used = some file) :
    netSockAlloc w st =
      (some file,
       { w with used := w.used.set file true
                socks := w.socks.set file
                  { w.sockAt file with state := st, mutex := true, sockChange := true,
                                       uipChange := true, timeout := none, buf := none,
                                       len := 0, max := 0 }
                filesFree := w.filesFree - 1 }) := by
  have h0 : ¬ (w.filesFree = 0) := by omega
  simp only [netSockAlloc, h0, if_false, hb]

theorem netSockAlloc_some_iff (st : NetSockState) (w : World) (hfiles : 0 < w.filesFree) :
    ∀ file, bittabAlloc w.used = some file → ∃ w1, netSockAlloc w st = (some file, w1) :=
  fun file hb => ⟨_, netSockAlloc_of_some st w file hfiles hb⟩

/-- After as many allocate/free cycles as the table has free slots the table
is full. -/
theorem allocFree_exhausts (st : NetSockState) (k : Nat) :
    ∀ w : World, 0 < w.filesFree → w.used.count false = k →
      ((allocFree st)^[k] w).used.count false = 0 ∧
      ((allocFree st)^[k] w).filesFree = w.filesFree ∧
      ((allocFree st)^[k] w).freed.length = w.freed.length + k := by
  induction k with
  | zero => intro w _ h; simp [h]
  | succ k ih =>
    intro w hf hc
    have hne : bittabAlloc w.used ≠ none := by
      rw [Ne, bittabAlloc_eq_none]; omega
    obtain ⟨file, hfile⟩ := Option.ne_none_iff_exists'.mp hne
    obtain ⟨w1, hw1⟩ := netSockAlloc_some_iff st w hf file hfile
    obtain ⟨h1, h2, h3⟩ := allocFree_of_some st w w1 file hw1
    obtain ⟨_, _, h6⟩ := bittabAlloc_some w.used file hfile
    obtain ⟨g1, g2, g3⟩ := ih (allocFree st w) (by omega) (by rw [h1]; omega)
    rw [Function.iterate_succ_apply]
    refine ⟨g1, by omega, ?_⟩
    rw [g3, h3]
    simp
    omega

theorem netSockAlloc_inv (st : NetSockState) (w w1 : World) (file : Nat)
    (h : netSockAlloc w st = (some file, w1)) :
    0 < w.filesFree ∧ bittabAlloc w.used = some file := by
  unfold netSockAlloc at h
  split_ifs at h with h0
  · simp at h
  · cases hb : bittabAlloc w.used with
    | none => simp [hb] at h
    | some slot =>
      simp only [hb, Prod.mk.injEq, Option.some.injEq] at h
      exact ⟨by omega, by rw [h.1]⟩

theorem netSockAlloc_full (st : NetSockState) (w : World) (h : w.used.count false = 0) :
    (netSockAlloc w st).1 = none := by
  unfold netSockAlloc
  split_ifs
  · rfl
  · rw [(bittabAlloc_eq_none w.used).mpr h]

/-- C9: netSockFree does not clear the bit of the record in the socket table.
After a successful netSockAlloc on any table, the slot handed out was free
before and is still marked occupied after netSockFree, so the set of occupied
slots differs from what it was before the allocation and one free slot is
lost, although the file handle is back in the registry; after as many
allocate/free cycles as the table had free slots netSockAlloc returns null. -/
theorem C9_free_keeps_bit (st : NetSockState) (w w1 : World) (file : Nat)
    (halloc : netSockAlloc w st = (some file, w1)) :
    w.used.getD file true = false ∧
    (netSockFree w1 file).used.getD file false = true ∧
    (netSockFree w1 file).used ≠ w.used ∧
    (netSockFree w1 file).used.count false + 1 = w.used.count false ∧
    (netSockFree w1 file).filesFree = w.filesFree ∧
    (netSockAlloc ((allocFree st)^[w.used.count false] w) st).1 = none := by
  obtain ⟨hf, hb⟩ := netSockAlloc_inv st w w1 file halloc
  obtain ⟨h1, h2, h3⟩ := bittabAlloc_some w.used file hb
  obtain ⟨g1, g2, _⟩ := allocFree_of_some st w w1 file halloc
  have hfree : allocFree st w = netSockFree w1 file := by
    unfold allocFree; rw [halloc]
  rw [hfree] at g1 g2
  have hset : (w.used.set file true).getD file false = true := by
    simp [List.getD_eq_getElem?_getD, h1]
  refine ⟨h2, by rw [g1]; exact hset, ?_, by rw [g1]; exact h3, g2, ?_⟩
  · intro he
    rw [g1] at he
    have hc := h3
    rw [he] at hc
    omega
  · exact netSockAlloc_full st _ (allocFree_exhausts st _ w hf rfl).1

/-- C9 at an empty table of two slots: the first allocation takes slot 0, the
slot stays occupied after the free, and after two allocate/free cycles the
table is full although no socket is in use. -/
theorem C9_free_keeps_bit_witness :
    (netSockFree (netSockAlloc (emptyWorld 2 4) .BUSY).2 0).used = [true, false] ∧
    (netSockAlloc (allocFree .BUSY (allocFree .BUSY (emptyWorld 2 4))) .BUSY).1 = none := by
  obtain ⟨_, _, _, _, _, h6⟩ :=
    C9_free_keeps_bit .BUSY (emptyWorld 2 4) (netSockAlloc (emptyWorld 2 4) .BUSY).2 0 rfl
  exact ⟨rfl, h6⟩

/-! ## Closing a socket -/

theorem World.sockAt_setSock (w : World) (file : Nat) (s : NetSock) (h : file < w.socks.length) :
    (w.setSock file s).sockAt file = s := by
  simp [World.sockAt, World.setSock, List.getD_eq_getElem?_getD, h]

/-- C10: what close does from each state a socket can be left in between two
calls (file is the handle of a record of the table).  From BOUND and BOUND_UDP,
the states after netSockBind, and from UNDEF_TCP and UNDEF_UDP the CloseState
assertion fails and nothing is freed.  From PEER_CLOSED and PEER_ABORTED close
frees the record and returns 0; from LISTENING it unregisters the port, frees
the record and returns 0; from BUSY it frees the record and returns 0 once the
callback has answered CLOSE by CLOSE_OK, PEER_CLOSED or PEER_ABORTED.
netSockBind registers no listener with the stack. -/
theorem C10_close (w : World) (file : Nat) (parks : List (Park World))
    (hfile : file < w.socks.length) :
    ((w.sockAt file).state = .BOUND ∨ (w.sockAt file).state = .BOUND_UDP ∨
        (w.sockAt file).state = .UNDEF_TCP ∨ (w.sockAt file).state = .UNDEF_UDP →
      sockClose w file parks = .assertFailed) ∧
    ((w.sockAt file).state = .PEER_CLOSED ∨ (w.sockAt file).state = .PEER_ABORTED →
      sockClose w file parks = .done 0 (netSockFree w file)) ∧
    ((w.sockAt file).state = .LISTENING →
      sockClose w file parks =
        .done 0 (netSockFree
          { w.setSock file { w.sockAt file with port := 0, state := .CLOSE_OK } with
            listening := w.listening.erase (w.sockAt file).port } file)) ∧
    ((w.sockAt file).state = .BUSY →
      ∀ next : NetSockState, next = .CLOSE_OK ∨ next = .PEER_CLOSED ∨ next = .PEER_ABORTED →
        sockClose w file (⟨fun x => x.netAppcallClose file next, true⟩ :: parks) =
          .done 0 (netSockFree ((sockCloseEnter w file).netAppcallClose file next) file)) ∧
    ((netSockFree w file).sockAt file).state = .NULL ∧
    (netSockFree w file).freed = w.freed ++ [file] ∧
    (∀ (port : Nat) (r : Int) (w' : World), netSockBind w file port = .done r w' →
      r = 0 ∧ w'.listening = w.listening ∧
      ((w'.sockAt file).state = .BOUND ∨ (w'.sockAt file).state = .BOUND_UDP)) := by
  refine ⟨?_, ?_, ?_, ?_, ?_, rfl, ?_⟩
  · intro h
    rcases h with h | h | h | h <;> simp [sockClose, sockCloseFinish, h]
  · intro h
    rcases h with h | h <;> simp [sockClose, sockCloseFinish, h]
  · intro h
    have h2 : ((({ w.setSock file { w.sockAt file with port := 0, state := .CLOSE_OK } with
        listening := w.listening.erase (w.sockAt file).port } : World)).sockAt file).state
          = .CLOSE_OK := by
      have := World.sockAt_setSock w file { w.sockAt file with port := 0, state := .CLOSE_OK } hfile
      simp only [World.sockAt, World.setSock] at this ⊢
      rw [this]
    simp only [sockClose, sockCloseFinish, h, reduceCtorEq, if_false, if_true, h2, or_true]
  · intro h next hnext
    have hlen : file < (sockCloseEnter w file).socks.length := by
      simp [sockCloseEnter, World.setSock, hfile]
    have h1 : ((sockCloseEnter w file).sockAt file).state = .CLOSE := by
      have := World.sockAt_setSock w file { w.sockAt file with state := .CLOSE } hfile
      simp only [World.sockAt, World.setSock, sockCloseEnter] at this ⊢
      rw [this]
    have h2 : (((sockCloseEnter w file).netAppcallClose file next).sockAt file).state = next := by
      have := World.sockAt_setSock (sockCloseEnter w file) file
        { (sockCloseEnter w file).sockAt file with state := next } hlen
      simp only [World.sockAt, World.setSock, World.netAppcallClose] at this ⊢
      rw [this]
    have hne : next ≠ .CLOSE ∧ next ≠ .LISTENING := by
      rcases hnext with e | e | e <;> simp [e]
    have hw : waitWhile (fun x => decide ((x.sockAt file).state = .CLOSE))
        (⟨fun x => x.netAppcallClose file next, true⟩ :: parks) (sockCloseEnter w file) =
          some ((sockCloseEnter w file).netAppcallClose file next) := by
      rw [waitWhile_cons_busy _ _ _ _ (by simp [h1])]
      cases parks <;> simp [waitWhile, h2, hne.1]
    simp only [sockClose, h, if_true, hw, sockCloseFinish, h2, hne.2, if_false]
    rcases hnext with e | e | e <;> simp [e]
  · have := World.sockAt_setSock w file
      { w.sockAt file with mutex := false, sockChange := false, uipChange := false,
                           state := .NULL } hfile
    simp only [World.sockAt, World.setSock, netSockFree] at this ⊢
    rw [this]
  · intro port r w' hb
    unfold netSockBind at hb
    by_cases h : (w.sockAt file).state = .UNDEF_TCP ∨ (w.sockAt file).state = .UNDEF_UDP
    · rw [if_pos h] at hb
      injection hb with hr hw
      subst hw
      refine ⟨hr.symm, rfl, ?_⟩
      rw [World.sockAt_setSock w file _ hfile]
      rcases h with h | h <;> simp [h]
    · rw [if_neg h] at hb
      cases hb

/-- C10 at a listener in slot 0 of a table of two slots: close unregisters the
port, frees the record and returns 0. -/
theorem C10_close_witness :
    ∃ w' : World,
      sockClose (netSockListen (netSockAlloc (emptyWorld 2 4) .UNDEF_TCP).2 0) 0 [] = .done 0 w' ∧
      w'.listening = [] ∧ w'.freed = [0] ∧ (w'.sockAt 0).state = .NULL :=
  ⟨_, (C10_close (netSockListen (netSockAlloc (emptyWorld 2 4) .UNDEF_TCP).2 0) 0 []
        (by decide)).2.2.1 rfl, rfl, rfl, rfl⟩

/-- A socket created by netSockCreateTCPServer for port 80 is in BOUND with no
listener registered; close on it fails the CloseState assertion and frees
nothing. -/
theorem C10_close_bound_counterexample :
    ∃ w' : World,
      netSockCreateTCPServer (emptyWorld 2 4) 80 = .done (some 0) w' ∧
      (w'.sockAt 0).state = .BOUND ∧ w'.listening = [] ∧
      sockClose w' 0 [] = .assertFailed :=
  ⟨_, rfl, rfl, rfl, rfl⟩

/-! ## Creating a socket: how often the record is freed -/

theorem netSockAlloc_eq (st : NetSockState) (w w1 : World) (file : Nat)
    (h : netSockAlloc w st = (some file, w1)) :
    w1 = { w with used := w.used.set file true
                  socks := w.socks.set file
                    { w.sockAt file with state := st, mutex := true, sockChange := true,
                                         uipChange := true, timeout := none, buf := none,
                                         len := 0, max := 0 }
                  filesFree := w.filesFree - 1 } := by
  obtain ⟨hf, hb⟩ := netSockAlloc_inv st w w1 file h
  rw [netSockAlloc_of_some st w file hf hb] at h
  injection h with _ h2
  exact h2.symm

/-- C12: netSockCreateTCP on a table where the allocation succeeds (file is the
handle allocated).  When the stack refuses the connection the record is
passed to netSockFree exactly once.  When the peer closes or aborts during the
connect wait the record is passed to netSockFree twice: by sockClose, which
netSockConnect calls through uosFileClose before it returns -1, and again by
netSockCreateTCP; the registry of file handles then holds one handle more than
before the call. In both cases the call returns null. -/
theorem C12_create_frees (w w1 : World) (file : Nat) (next : NetSockState)
    (parks : List (Park World))
    (halloc : netSockAlloc w .UNDEF_TCP = (some file, w1)) (hfile : file < w.socks.length)
    (hnext : next = .PEER_CLOSED ∨ next = .PEER_ABORTED) :
    (∃ w' : World, netSockCreateTCP w false parks = .done none w' ∧
      w'.freed = w.freed ++ [file] ∧ w'.filesFree = w.filesFree) ∧
    (∃ w' : World,
      netSockCreateTCP w true (⟨fun x => x.netAppcallClose file next, true⟩ :: parks) =
        .done none w' ∧
      w'.freed = w.freed ++ [file, file] ∧ w'.filesFree = w.filesFree + 1) := by
  obtain ⟨hf, _⟩ := netSockAlloc_inv .UNDEF_TCP w w1 file halloc
  have hw1 := netSockAlloc_eq .UNDEF_TCP w w1 file halloc
  have hlen1 : file < w1.socks.length := by rw [hw1]; simpa using hfile
  have hst1 : (w1.sockAt file).state = .UNDEF_TCP := by
    rw [hw1]
    simp [World.sockAt, List.getD_eq_getElem?_getD, hfile]
  have hfree1 : w1.freed = w.freed := by rw [hw1]
  have hff1 : w1.filesFree = w.filesFree - 1 := by rw [hw1]
  constructor
  · refine ⟨netSockFree w1 file, ?_, ?_, ?_⟩
    · simp [netSockCreateTCP, netSockCreate, halloc, netSockConnect, netSockConnectEnter, hst1]
    · simp [netSockFree, hfree1]
    · simp only [netSockFree, hff1]
      omega
  · have hne : next ≠ .CONNECT ∧ next ≠ .LISTENING ∧ next ≠ .BUSY := by
      rcases hnext with e | e <;> simp [e]
    obtain ⟨w2, hw2⟩ : ∃ w2 : World, w2 =
        { w1.setSock file { w1.sockAt file with state := .CONNECT } with
          connFile := some file } := ⟨_, rfl⟩
    have hlen2 : file < w2.socks.length := by
      rw [hw2]; simpa [World.setSock] using hlen1
    have hst2 : (w2.sockAt file).state = .CONNECT := by
      rw [hw2]
      simp [World.sockAt, World.setSock, List.getD_eq_getElem?_getD, hlen1]
    have hst3 : ((w2.netAppcallClose file next).sockAt file).state = next := by
      simp [World.netAppcallClose, World.sockAt, World.setSock, List.getD_eq_getElem?_getD,
        hlen2]
    have henter : netSockConnectEnter w1 file true = .parked w2 := by
      rw [hw2]
      simp [netSockConnectEnter, hst1]
    have hwait : waitWhile (fun x => decide ((x.sockAt file).state = .CONNECT))
        (⟨fun x => x.netAppcallClose file next, true⟩ :: parks) w2 =
          some (w2.netAppcallClose file next) := by
      rw [waitWhile_cons_busy _ _ _ _ (by simp [hst2])]
      cases parks <;> simp [waitWhile, hst3, hne.1]
    have hfinish : netSockConnectFinish (w2.netAppcallClose file next) file =
        .done (-1) (netSockFree (w2.netAppcallClose file next) file) := by
      simp only [netSockConnectFinish, hst3, hnext, if_true, uosFileClose, sockClose, hne.2.2,
        if_false, sockCloseFinish, hne.2.1]
      rcases hnext with e | e <;> simp [e]
    have hconn : netSockConnect w1 file true
        (⟨fun x => x.netAppcallClose file next, true⟩ :: parks) =
          .done (-1) (netSockFree (w2.netAppcallClose file next) file) := by
      simp only [netSockConnect, henter, hwait, hfinish]
    refine ⟨netSockFree (netSockFree (w2.netAppcallClose file next) file) file, ?_, ?_, ?_⟩
    · simp [netSockCreateTCP, netSockCreate, halloc, hconn]
    · simp [netSockFree, World.netAppcallClose, World.setSock, hw2, hfree1]
    · simp only [netSockFree, World.netAppcallClose, World.setSock, hw2, hff1]
      omega

/-- C12 at an empty table of two slots and a peer that resets the connection
during the connect wait: slot 0 is freed twice and the registry holds five
handles where it held four. -/
theorem C12_create_frees_witness :
    ∃ w' : World,
      netSockCreateTCP (emptyWorld 2 4) true
          [⟨fun x => x.netAppcallClose 0 .PEER_ABORTED, true⟩] = .done none w' ∧
      w'.freed = [0, 0] ∧ w'.filesFree = 5 :=
  (C12_create_frees (emptyWorld 2 4) _ 0 .PEER_ABORTED [] rfl (by decide) (Or.inr rfl)).2

/-! ## The accept path of the TCP callback -/

theorem listenerScan_spec (w : World) (n : Nat) :
    ∀ i0 : Nat,
      i0 ≤ listenerScan w n i0 ∧ listenerScan w n i0 ≤ i0 + n ∧
      (∀ j, i0 ≤ j → j < listenerScan w n i0 →
        ¬ (w.used.getD j false = true ∧ isListener (w.sockAt j) w.lport = true)) ∧
      (listenerScan w n i0 < i0 + n →
        w.used.getD (listenerScan w n i0) false = true ∧
        isListener (w.sockAt (listenerScan w n i0)) w.lport = true) := by
  induction n with
  | zero =>
    intro i0
    simp only [listenerScan]
    exact ⟨le_refl _, le_refl _, fun j h1 h2 => by omega, fun h => by omega⟩
  | succ n ih =>
    intro i0
    obtain ⟨h1, h2, h3, h4⟩ := ih (i0 + 1)
    by_cases hu : w.used.getD i0 false = false
    · have e : listenerScan w (n + 1) i0 = listenerScan w n (i0 + 1) := by
        rw [listenerScan, if_pos hu]
      rw [e]
      refine ⟨by omega, by omega, ?_, fun h => h4 (by omega)⟩
      intro j hj1 hj2
      by_cases hj : j = i0
      · subst hj
        intro hh
        rw [hu] at hh
        cases hh.1
      · exact h3 j (by omega) hj2
    · have hu2 : w.used.getD i0 false = true := by
        cases hh : w.used.getD i0 false
        · exact absurd hh hu
        · rfl
      by_cases hl : isListener (w.sockAt i0) w.lport = true
      · have e : listenerScan w (n + 1) i0 = i0 := by
          rw [listenerScan, if_neg hu, if_pos hl]
        rw [e]
        exact ⟨le_refl _, by omega, fun j h1 h2 => by omega, fun _ => ⟨hu2, hl⟩⟩
      · have e : listenerScan w (n + 1) i0 = listenerScan w n (i0 + 1) := by
          rw [listenerScan, if_neg hu, if_neg hl]
        rw [e]
        refine ⟨by omega, by omega, ?_, fun h => h4 (by omega)⟩
        intro j hj1 hj2
        by_cases hj : j = i0
        · subst hj
          exact fun hh => hl hh.2
        · exact h3 j (by omega) hj2

theorem acceptWait_end (i : Nat) (waits : List (Park World)) :
    ∀ (w : World) (t : Bool), (acceptWait i waits w t).2 = false →
      ((acceptWait i waits w t).1.sockAt i).state = .ACCEPTING := by
  induction waits with
  | nil =>
    intro w t h
    by_cases hc : (w.sockAt i).state ≠ .ACCEPTING ∧ t = false
    · rw [acceptWait, if_pos hc] at h
      cases h
    · rw [acceptWait, if_neg hc] at h ⊢
      by_contra hne
      exact hc ⟨hne, h⟩
  | cons p ps ih =>
    intro w t h
    by_cases hc : (w.sockAt i).state ≠ .ACCEPTING ∧ t = false
    · rw [acceptWait, if_pos hc] at h ⊢
      exact ih _ _ h
    · rw [acceptWait, if_neg hc] at h ⊢
      by_contra hne
      exact hc ⟨hne, h⟩

theorem netSockAlloc_none (st : NetSockState) (w : World) (h : (netSockAlloc w st).1 = none) :
    netSockAlloc w st = (none, w) := by
  unfold netSockAlloc at h ⊢
  split_ifs with h0
  · rfl
  · rw [if_neg h0] at h
    cases hb : bittabAlloc w.used with
    | none => rfl
    | some slot => simp [hb] at h

theorem World.sockAt_set_ne (socks : List NetSock) (i j : Nat) (s : NetSock) (h : j ≠ i) :
    (socks.set i s).getD j nullSock = socks.getD j nullSock := by
  simp [List.getD_eq_getElem?_getD, List.getElem?_set_ne (Ne.symm h)]

theorem World.sockAt_set_eq (socks : List NetSock) (i : Nat) (s : NetSock) (h : i < socks.length) :
    (socks.set i s).getD i nullSock = s := by
  simp [List.getD_eq_getElem?_getD, h]

theorem getD_true_lt (used : List Bool) (i : Nat) (h : used.getD i false = true) :
    i < used.length := by
  by_contra hn
  have : used.getD i false = false := by
    simp [List.getD_eq_getElem?_getD, List.getElem?_eq_none (not_lt.mp hn)]
  rw [this] at h
  cases h

/-- The accept path when a listener is found, the wait does not time out and
the allocation succeeds. -/
theorem netTcpAppcall_accepted (w w1 : World) (waits : List (Park World)) (file : Nat)
    (hfile : w.connFile = none) (hlt : acceptListener w < w.used.length)
    (ht : acceptTimedOut w waits = false)
    (halloc : netSockAlloc (acceptWorld w waits) .BUSY = (some file, w1)) :
    netTcpAppcall w none waits =
      { w1.setSock (acceptListener w)
          { w1.sockAt (acceptListener w) with newConnection := some w1.conn, state := .ACCEPTED } with
        connFile := some file } := by
  have h1 : ¬ (listenerScan w w.used.length 0 ≥ w.used.length) := not_le.mpr hlt
  have h2 : ¬ ((acceptWait (listenerScan w w.used.length 0) waits w false).2 = true) := by
    have := ht
    unfold acceptTimedOut acceptListener at this
    rw [this]
    simp
  have h3 : netSockAlloc (acceptWait (listenerScan w w.used.length 0) waits w false).1 .BUSY =
      (some file, w1) := halloc
  simp only [netTcpAppcall, hfile, if_neg h1, if_neg h2, h3]
  rfl

/-- The paths of the connected block of `netTcpAppcall` for a connection
without an appstate file and with no accept hook installed, by the value of
`i` after the scan, the value of `timeout` after the wait and the result of
the allocation. -/
theorem netTcpAppcall_cases (w : World) (waits : List (Park World))
    (hfile : w.connFile = none) :
    (w.used.length ≤ acceptListener w ↔
      ∀ j, j < w.used.length →
        ¬ (w.used.getD j false = true ∧ isListener (w.sockAt j) w.lport = true)) ∧
    (acceptListener w < w.used.length →
      w.used.getD (acceptListener w) false = true ∧
      isListener (w.sockAt (acceptListener w)) w.lport = true ∧
      ∀ j, j < acceptListener w →
        ¬ (w.used.getD j false = true ∧ isListener (w.sockAt j) w.lport = true)) ∧
    (w.used.length ≤ acceptListener w →
      netTcpAppcall w none waits = { w with aborts := w.aborts + 1 }) ∧
    (acceptListener w < w.used.length →
      acceptTimedOut w waits = true ∨ (netSockAlloc (acceptWorld w waits) .BUSY).1 = none →
      netTcpAppcall w none waits =
        { acceptWorld w waits with aborts := (acceptWorld w waits).aborts + 1 }) ∧
    (acceptListener w < w.used.length → acceptTimedOut w waits = false →
      ∀ (file : Nat) (w1 : World), netSockAlloc (acceptWorld w waits) .BUSY = (some file, w1) →
        (acceptWorld w waits).used.getD (acceptListener w) false = true →
        (acceptWorld w waits).socks.length = (acceptWorld w waits).used.length →
        ((acceptWorld w waits).sockAt (acceptListener w)).state = .ACCEPTING ∧
        file ≠ acceptListener w ∧
        (acceptWorld w waits).used.getD file true = false ∧
        (netTcpAppcall w none waits).aborts = (acceptWorld w waits).aborts ∧
        (netTcpAppcall w none waits).connFile = some file ∧
        ((netTcpAppcall w none waits).sockAt file).state = .BUSY ∧
        (netTcpAppcall w none waits).sockAt (acceptListener w) =
          { (acceptWorld w waits).sockAt (acceptListener w) with
            newConnection := some (acceptWorld w waits).conn, state := .ACCEPTED } ∧
        (∀ j, j ≠ acceptListener w → j ≠ file →
          (netTcpAppcall w none waits).sockAt j = (acceptWorld w waits).sockAt j)) := by
  obtain ⟨_, s2, s3, s4⟩ := listenerScan_spec w w.used.length 0
  simp only [Nat.zero_add] at s2 s4
  refine ⟨⟨?_, ?_⟩, ?_, ?_, ?_, ?_⟩
  · intro h j hj
    exact s3 j (Nat.zero_le _) (by unfold acceptListener at h; omega)
  · intro h
    by_contra hn
    have hlt : listenerScan w w.used.length 0 < w.used.length := by
      unfold acceptListener at hn; omega
    exact h _ hlt (s4 hlt)
  · intro h
    have h4 := s4 h
    exact ⟨h4.1, h4.2, fun j hj => s3 j (Nat.zero_le _) hj⟩
  · intro h
    have h1 : listenerScan w w.used.length 0 ≥ w.used.length := h
    simp only [netTcpAppcall, hfile, if_pos h1]
  · intro hlt hc
    have h1 : ¬ (listenerScan w w.used.length 0 ≥ w.used.length) := not_le.mpr hlt
    by_cases ht : (acceptWait (listenerScan w w.used.length 0) waits w false).2 = true
    · simp only [netTcpAppcall, hfile, if_neg h1, if_pos ht]
      rfl
    · have hnone : (netSockAlloc (acceptWorld w waits) .BUSY).1 = none := by
        rcases hc with hc | hc
        · exact absurd hc ht
        · exact hc
      have h3 : netSockAlloc (acceptWait (listenerScan w w.used.length 0) waits w false).1 .BUSY =
          (none, (acceptWait (listenerScan w w.used.length 0) waits w false).1) :=
        netSockAlloc_none .BUSY _ hnone
      simp only [netTcpAppcall, hfile, if_neg h1, if_neg ht, h3]
      rfl
  · intro hlt ht file w1 halloc hi hshape
    have hres := netTcpAppcall_accepted w w1 waits file hfile hlt ht halloc
    have hacc : ((acceptWorld w waits).sockAt (acceptListener w)).state = .ACCEPTING :=
      acceptWait_end (acceptListener w) waits w false ht
    obtain ⟨_, hb⟩ := netSockAlloc_inv .BUSY _ w1 file halloc
    obtain ⟨b1, b2, _⟩ := bittabAlloc_some _ file hb
    have hw1 := netSockAlloc_eq .BUSY _ w1 file halloc
    have hne : file ≠ acceptListener w := by
      intro e
      rw [e, List.getD_eq_getElem?_getD] at b2
      rw [List.getD_eq_getElem?_getD] at hi
      have hi' := getD_true_lt _ _ (by rw [List.getD_eq_getElem?_getD]; exact hi)
      rw [List.getElem?_eq_getElem hi'] at b2 hi
      simp only [Option.getD_some] at b2 hi
      rw [b2] at hi
      cases hi
    have hil : acceptListener w < (acceptWorld w waits).socks.length := by
      rw [hshape]; exact getD_true_lt _ _ hi
    have hfl : file < (acceptWorld w waits).socks.length := by rw [hshape]; exact b1
    have hw1len : w1.socks.length = (acceptWorld w waits).socks.length := by
      rw [hw1]; simp
    have hw1i : w1.sockAt (acceptListener w) = (acceptWorld w waits).sockAt (acceptListener w) := by
      rw [hw1]
      exact World.sockAt_set_ne _ _ _ _ (Ne.symm hne)
    refine ⟨hacc, hne, b2, ?_, ?_, ?_, ?_, ?_⟩
    · rw [hres, hw1]
      rfl
    · rw [hres]
    · rw [hres]
      show ((w1.socks.set (acceptListener w) _).getD file nullSock).state = .BUSY
      rw [World.sockAt_set_ne _ _ _ _ hne, hw1]
      show (((acceptWorld w waits).socks.set file _).getD file nullSock).state = .BUSY
      rw [World.sockAt_set_eq _ _ _ hfl]
    · rw [hres]
      show (w1.socks.set (acceptListener w) _).getD (acceptListener w) nullSock = _
      rw [World.sockAt_set_eq _ _ _ (by rw [hw1len]; exact hil), hw1i, hw1]
    · intro j hj1 hj2
      rw [hres]
      show (w1.socks.set (acceptListener w) _).getD j nullSock = _
      rw [World.sockAt_set_ne _ _ _ _ hj1, hw1]
      exact World.sockAt_set_ne _ _ _ _ hj2

theorem isListener_iff (s : NetSock) (lport : Nat) :
    isListener s lport = true ↔
      (s.state = .LISTENING ∨ s.state = .ACCEPTING ∨ s.state = .ACCEPTED) ∧ s.port = lport := by
  simp [isListener]

theorem listensOn_iff (w : World) (j : Nat) :
    ListensOn w j ↔ (w.used.getD j false = true ∧ isListener (w.sockAt j) w.lport = true) := by
  unfold ListensOn
  rw [isListener_iff]

/-- The scan runs through the table when no occupied slot listens on the port. -/
theorem acceptListener_of_none (w : World)
    (h : ∀ j, j < w.used.length → ¬ ListensOn w j) : w.used.length ≤ acceptListener w := by
  obtain ⟨_, _, _, s4⟩ := listenerScan_spec w w.used.length 0
  simp only [Nat.zero_add] at s4
  by_contra hn
  have hlt : listenerScan w w.used.length 0 < w.used.length := by
    unfold acceptListener at hn; omega
  exact h _ hlt ((listensOn_iff w _).mpr (s4 hlt))

/-- The scan stops at the lowest occupied slot that listens on the port. -/
theorem acceptListener_of_lowest (w : World) (i : Nat) (hi : i < w.used.length)
    (hm : ListensOn w i) (hlow : ∀ j, j < i → ¬ ListensOn w j) : acceptListener w = i := by
  obtain ⟨_, _, s3, s4⟩ := listenerScan_spec w w.used.length 0
  simp only [Nat.zero_add] at s4
  unfold acceptListener
  have h1 : listenerScan w w.used.length 0 ≤ i := by
    by_contra hn
    exact s3 i (Nat.zero_le _) (by omega) ((listensOn_iff w i).mp hm)
  have h2 : ¬ (listenerScan w w.used.length 0 < i) := by
    intro hlt
    exact hlow _ hlt ((listensOn_iff w _).mpr (s4 (by omega)))
  omega

theorem afterTurns_zero (waits : List (Park World)) (w : World) : afterTurns waits 0 w = w := by
  simp [afterTurns]

theorem afterTurns_succ (p : Park World) (ps : List (Park World)) (k : Nat) (w : World) :
    afterTurns (p :: ps) (k + 1) w = afterTurns ps k (p.act w) := by
  simp [afterTurns]

theorem acceptWait_timedOut (i : Nat) (waits : List (Park World)) (w : World) :
    acceptWait i waits w true = (w, true) := by
  cases waits <;> simp [acceptWait]

/-- The wait of the accept path ends without a timeout, at the table after `k`
turns, when the listener reaches `ACCEPTING` after `k` turns. -/
theorem acceptWait_reaches (i : Nat) (waits : List (Park World)) :
    ∀ (w : World) (k : Nat), ReachesAccepting i waits w k →
      acceptWait i waits w false = (afterTurns waits k w, false) := by
  induction waits with
  | nil =>
    intro w k ⟨hk, hs, _, _⟩
    have hk0 : k = 0 := by simpa using hk
    subst hk0
    rw [afterTurns_zero] at hs ⊢
    simp [acceptWait, hs]
  | cons p ps ih =>
    intro w k ⟨hk, hs, hbefore, hsig⟩
    cases k with
    | zero =>
      rw [afterTurns_zero] at hs ⊢
      simp [acceptWait, hs]
    | succ k =>
      have h0 : (w.sockAt i).state ≠ .ACCEPTING := by
        have := hbefore 0 (by omega)
        rwa [afterTurns_zero] at this
      have hp : p.signalled = true := hsig p (by simp)
      rw [acceptWait, if_pos ⟨h0, rfl⟩, hp, afterTurns_succ]
      apply ih
      refine ⟨by simpa using hk, by rwa [afterTurns_succ] at hs, ?_, ?_⟩
      · intro j hj
        have := hbefore (j + 1) (by omega)
        rwa [afterTurns_succ] at this
      · intro q hq
        exact hsig q (by simp [hq])

/-- The wait of the accept path times out, at the table after some of the
turns, when the listener does not reach `ACCEPTING` before. -/
theorem acceptWait_timeout (i : Nat) (waits : List (Park World)) :
    ∀ w : World, (∀ k, ¬ ReachesAccepting i waits w k) →
      ∃ k, k ≤ waits.length ∧ acceptWait i waits w false = (afterTurns waits k w, true) := by
  induction waits with
  | nil =>
    intro w h
    have h0 : (w.sockAt i).state ≠ .ACCEPTING := by
      intro hs
      exact h 0 ⟨le_refl _, by rwa [afterTurns_zero], fun j hj => by omega,
        fun p hp => by simp at hp⟩
    exact ⟨0, le_refl _, by rw [acceptWait, if_pos ⟨h0, rfl⟩, afterTurns_zero]⟩
  | cons p ps ih =>
    intro w h
    have h0 : (w.sockAt i).state ≠ .ACCEPTING := by
      intro hs
      exact h 0 ⟨Nat.zero_le _, by rwa [afterTurns_zero], fun j hj => by omega,
        fun p hp => by simp at hp⟩
    cases hp : p.signalled with
    | false =>
      refine ⟨1, by simp, ?_⟩
      rw [acceptWait, if_pos ⟨h0, rfl⟩, hp, afterTurns_succ, afterTurns_zero]
      exact acceptWait_timedOut i ps (p.act w)
    | true =>
      have hrest : ∀ k, ¬ ReachesAccepting i ps (p.act w) k := by
        intro k ⟨hk, hs, hbefore, hsig⟩
        refine h (k + 1) ⟨by simpa using hk, by rwa [afterTurns_succ], ?_, ?_⟩
        · intro j hj
          cases j with
          | zero => rwa [afterTurns_zero]
          | succ j =>
            rw [afterTurns_succ]
            exact hbefore j (by omega)
        · intro q hq
          simp only [List.take_succ_cons, List.mem_cons] at hq
          rcases hq with e | e
          · rw [e]; exact hp
          · exact hsig q e
      obtain ⟨k, hk, he⟩ := ih (p.act w) hrest
      refine ⟨k + 1, by simpa using hk, ?_⟩
      rw [acceptWait, if_pos ⟨h0, rfl⟩, hp, afterTurns_succ]
      exact he

theorem Quiet.refl (a : List NetSock) : Quiet a a := fun _ => Or.inl rfl

theorem Quiet.trans {a b c : List NetSock} (h1 : Quiet a b) (h2 : Quiet b c) : Quiet a c := by
  intro f
  rcases h2 f with h | h
  · rcases h1 f with g | g
    · exact Or.inl (h.trans g)
    · right; rw [h]; exact g
  · exact Or.inr h

theorem Quiet.set (a : List NetSock) (i : Nat) (s : NetSock) (h : ¬ holdsBuf s.state) :
    Quiet a (a.set i s) := by
  intro f
  by_cases hf : f = i
  · subst hf
    by_cases hl : f < a.length
    · right
      rw [World.sockAt_set_eq a f s hl]
      exact h
    · left
      have h1 : (a.set f s)[f]? = none :=
        List.getElem?_eq_none (by rw [List.length_set]; exact not_lt.mp hl)
      have h2 : a[f]? = none := List.getElem?_eq_none (not_lt.mp hl)
      rw [List.getD_eq_getElem?_getD, List.getD_eq_getElem?_getD, h1, h2]
  · left
    exact World.sockAt_set_ne a i f s hf

theorem holdsBuf_iff (st : NetSockState) :
    holdsBuf st ↔ st = .READING ∨ st = .READING_LINE ∨ st = .WRITING := Iff.rfl

theorem quiet_alloc (w : World) (st : NetSockState)
    (hst : st = .UNDEF_TCP ∨ st = .UNDEF_UDP ∨ st = .BUSY) :
    Quiet w.socks (netSockAlloc w st).2.socks := by
  unfold netSockAlloc
  split_ifs
  · exact Quiet.refl _
  · cases hb : bittabAlloc w.used with
    | none => exact Quiet.refl _
    | some slot =>
      simp only
      apply Quiet.set
      rcases hst with e | e | e <;> simp [holdsBuf, e]

theorem quiet_free (w : World) (file : Nat) : Quiet w.socks (netSockFree w file).socks := by
  unfold netSockFree
  apply Quiet.set
  simp [holdsBuf]

theorem quiet_closeFinish (w : World) (file : Nat) (v : Int) (w1 : World)
    (h : sockCloseFinish w file = .done v w1) : Quiet w.socks w1.socks := by
  unfold sockCloseFinish at h
  simp only at h
  split_ifs at h with h1 h2
  · injection h with _ hw
    subst hw
    exact Quiet.trans (Quiet.set _ _ _ (by simp [holdsBuf])) (quiet_free _ _)
  · injection h with _ hw
    subst hw
    exact quiet_free _ _

theorem acceptWait_nil (i : Nat) (w : World) (t : Bool) : (acceptWait i [] w t).1 = w := by
  rw [acceptWait]
  split_ifs <;> rfl

theorem quiet_connected (w : World) (acceptHook : Option Int) :
    Quiet w.socks (netTcpAppcall w acceptHook []).socks := by
  have hq := quiet_alloc w .BUSY (Or.inr (Or.inr rfl))
  unfold netTcpAppcall
  cases hcf : w.connFile with
  | some file =>
    simp only
    split_ifs
    · exact Quiet.set _ _ _ (by simp [holdsBuf])
    · exact Quiet.refl _
  | none =>
    cases acceptHook with
    | some r =>
      simp only
      rcases h : netSockAlloc w .BUSY with ⟨o, w1⟩
      rw [h] at hq
      cases o with
      | none => exact hq
      | some file =>
        simp only
        split_ifs
        · exact Quiet.trans hq (Quiet.set _ _ _ (by simp [holdsBuf]))
        · exact hq
    | none =>
      simp only [acceptWait_nil]
      split_ifs
      · exact Quiet.refl _
      · exact Quiet.refl _
      · rcases h : netSockAlloc w .BUSY with ⟨o, w1⟩
        rw [h] at hq
        cases o with
        | none => exact hq
        | some file => exact Quiet.trans hq (Quiet.set _ _ _ (by simp [holdsBuf]))

theorem tableStep_quiet (w w1 : World) (h : TableStep w w1) : Quiet w.socks w1.socks := by
  cases h with
  | alloc st hst => exact quiet_alloc w st hst
  | free file => exact quiet_free w file
  | bind file port r w1 hb =>
    unfold netSockBind at hb
    by_cases hc : (w.sockAt file).state = .UNDEF_TCP ∨ (w.sockAt file).state = .UNDEF_UDP
    · rw [if_pos hc] at hb
      injection hb with _ hw
      subst hw
      apply Quiet.set
      simp only
      split_ifs <;> simp [holdsBuf]
    · rw [if_neg hc] at hb
      cases hb
  | listen file => exact Quiet.set _ _ _ (by simp [holdsBuf])
  | connectParked file connects w1 hp =>
    unfold netSockConnectEnter at hp
    split_ifs at hp
    injection hp with hw
    subst hw
    exact Quiet.set _ _ _ (by simp [holdsBuf])
  | connectRet file connects v w1 hr =>
    unfold netSockConnectEnter at hr
    split_ifs at hr
    · injection hr with _ hw
      subst hw
      exact Quiet.refl _
    · injection hr with _ hw
      subst hw
      exact Quiet.refl _
    · injection hr with _ hw
      subst hw
      exact Quiet.set _ _ _ (by simp [holdsBuf])
  | connectFinish file v w1 hf =>
    unfold netSockConnectFinish at hf
    split_ifs at hf with h1 h2
    · have hnb : (w.sockAt file).state ≠ .BUSY := by
        rcases h1 with e | e <;> simp [e]
      simp only [uosFileClose, sockClose, if_neg hnb] at hf
      cases hcf : sockCloseFinish w file with
      | done v2 w2 =>
        rw [hcf] at hf
        injection hf with _ hw
        subst hw
        exact quiet_closeFinish w file v2 _ hcf
      | assertFailed => rw [hcf] at hf; cases hf
      | blocked => rw [hcf] at hf; cases hf
    · injection hf with _ hw
      subst hw
      exact Quiet.set _ _ _ (by simp [holdsBuf])
  | closeEnter file _ => exact Quiet.set _ _ _ (by simp [holdsBuf])
  | closeFinish file v w1 hf => exact quiet_closeFinish w file v _ hf
  | acceptEnter file w1 ha =>
    unfold netSockAcceptEnter at ha
    split_ifs at ha
    injection ha with hw
    subst hw
    exact Quiet.set _ _ _ (by simp [holdsBuf])
  | acceptFinish file r w1 ha =>
    unfold netSockAcceptFinish at ha
    split_ifs at ha
    injection ha with _ hw
    subst hw
    exact Quiet.set _ _ _ (by simp [holdsBuf])
  | connected acceptHook => exact quiet_connected w acceptHook
  | peerEnd file next hn =>
    apply Quiet.set
    rcases hn with e | e | e <;> simp [holdsBuf, e]

theorem bufInv_of_not_holds (s : NetSock) (h : ¬ holdsBuf s.state) : BufInv s :=
  fun hh => absurd hh h

theorem bufInv_appReadReturn (c : Cx) (h : BufInv c.sock) : BufInv (appReadReturn c).sock := by
  unfold appReadReturn
  split_ifs with h1
  · simp only [sockReadFinish, h1, reduceCtorEq, if_false, or_true, if_true]
    exact bufInv_of_not_holds _ (by simp [holdsBuf])
  · exact h

theorem bufInv_appTurn (t : AppTurn) (c : Cx) (ht : t.hasBuf = true) (h : BufInv c.sock) :
    BufInv (appTurn t c).1.sock := by
  cases t with
  | idle => exact h
  | readReturn => exact bufInv_appReadReturn c h
  | read st data max =>
    have h1 := bufInv_appReadReturn c h
    simp only [AppTurn.hasBuf, Option.isSome_iff_ne_none] at ht
    simp only [appTurn, sockReadEnter]
    split_ifs
    · exact h1
    · exact h1
    · exact h1
    · exact fun _ => ht

theorem bufInv_waitReader (script : List AppTurn) :
    ∀ (c : Cx) (t : Bool), (∀ x ∈ script, x.hasBuf = true) → BufInv c.sock →
      BufInv (waitReader script c t).2.1.sock ∧
      ∀ x ∈ (waitReader script c t).1, x.hasBuf = true := by
  induction script with
  | nil =>
    intro c t _ h
    rw [waitReader]
    split_ifs <;> exact ⟨h, fun x hx => by simp at hx⟩
  | cons a rest ih =>
    intro c t hs h
    rw [waitReader]
    split_ifs
    · exact ih _ _ (fun x hx => hs x (by simp [hx])) (bufInv_appTurn a c (hs a (by simp)) h)
    · exact ⟨h, hs⟩

theorem lineLoop_state_buf (data : List Nat) :
    ∀ s : NetSock, (lineLoop data s).2.state = s.state ∧
      ((lineLoop data s).2.buf = none ↔ s.buf = none) := by
  induction data with
  | nil => intro s; simp [lineLoop]
  | cons ch rest ih =>
    intro s
    rw [lineLoop]
    split_ifs
    · exact ih s
    · simp
    · obtain ⟨h1, h2⟩ := ih { s with buf := s.buf.map (fun p => p.poke s.len ch), len := s.len + 1 }
      exact ⟨h1, by rw [h2]; simp⟩
    · simp

theorem bufInv_tcpReadLine (data : List Nat) (c : Cx) (h : BufInv c.sock) :
    BufInv (tcpReadLine data c).2.sock := by
  obtain ⟨h1, h2⟩ := lineLoop_state_buf data c.sock
  unfold tcpReadLine
  simp only
  split_ifs
  · exact bufInv_of_not_holds _ (by simp [holdsBuf])
  · intro hh
    rw [Ne, h2]
    exact h (by rw [← h1]; exact hh)

theorem bufInv_newdataPass (script : List AppTurn) (data : List Nat) (c : Cx)
    (hs : ∀ x ∈ script, x.hasBuf = true) (h : BufInv c.sock) :
    BufInv (newdataPass script data c).2.2.1.sock ∧
      ∀ x ∈ (newdataPass script data c).1, x.hasBuf = true := by
  obtain ⟨h1, h2⟩ := bufInv_waitReader script c false hs h
  unfold newdataPass
  simp only
  split_ifs
  · exact ⟨bufInv_of_not_holds _ (by simp [holdsBuf, netAppcallClose]), h2⟩
  · exact ⟨bufInv_tcpReadLine _ _ h1, h2⟩
  · exact ⟨bufInv_of_not_holds _ (by simp [holdsBuf, tcpRead]), h2⟩
  · exact ⟨h1, h2⟩

theorem bufInv_newdataLoop (fuel : Nat) :
    ∀ (script : List AppTurn) (data : List Nat) (c : Cx) (t : Bool) (c1 : Cx),
      (∀ x ∈ script, x.hasBuf = true) → BufInv c.sock →
      newdataLoop fuel script data c t = some c1 → BufInv c1.sock := by
  induction fuel with
  | zero =>
    intro script data c t c1 _ h he
    rw [newdataLoop] at he
    split_ifs at he
    injection he with he
    rw [← he]; exact h
  | succ n ih =>
    intro script data c t c1 hs h he
    rw [newdataLoop] at he
    split_ifs at he
    · obtain ⟨g1, g2⟩ := bufInv_newdataPass script data c hs h
      exact ih _ _ _ _ _ g2 g1 he
    · injection he with he
      rw [← he]; exact h

theorem bufInv_netAppcallClose (c : Cx) (next : NetSockState) (h : ¬ holdsBuf next) :
    BufInv (netAppcallClose c next).sock :=
  bufInv_of_not_holds _ h

theorem bufInv_tcpAcked (mss : Nat) (c : Cx) (h : BufInv c.sock) :
    BufInv (tcpAcked mss c).sock := by
  unfold tcpAcked
  split_ifs with h1 h2
  · exact bufInv_of_not_holds _ (by simp [holdsBuf])
  · intro _
    have hb := h (Or.inr (Or.inr h1))
    simpa using hb
  · exact h

theorem bufInv_tcpPoll (c : Cx) (h : BufInv c.sock) : BufInv (tcpPoll c).sock := by
  unfold tcpPoll
  split_ifs
  · exact bufInv_of_not_holds _ (by simp [holdsBuf, netAppcallClose])
  · exact h
  · exact h

theorem bufInv_netTcpAppcallMutex (fuel : Nat) (ev : TcpEvent) (script : List AppTurn)
    (c c1 : Cx) (hs : ∀ x ∈ script, x.hasBuf = true) (h : BufInv c.sock)
    (he : netTcpAppcallMutex fuel ev script c = some c1) : BufInv c1.sock := by
  unfold netTcpAppcallMutex at he
  simp only at he
  have h1 : BufInv (if ev.aborted then netAppcallClose c .PEER_ABORTED else c).sock := by
    split_ifs
    · exact bufInv_netAppcallClose _ _ (by simp [holdsBuf])
    · exact h
  have h2 : BufInv (if ev.timedout then
      netAppcallClose (if ev.aborted then netAppcallClose c .PEER_ABORTED else c) .PEER_ABORTED
      else (if ev.aborted then netAppcallClose c .PEER_ABORTED else c)).sock := by
    split_ifs
    all_goals first
      | exact h
      | exact bufInv_netAppcallClose _ _ (by simp [holdsBuf])
  generalize (if ev.timedout then
      netAppcallClose (if ev.aborted then netAppcallClose c .PEER_ABORTED else c) .PEER_ABORTED
      else (if ev.aborted then netAppcallClose c .PEER_ABORTED else c)) = c2 at he h2
  have h3 : BufInv (if ev.acked then tcpAcked ev.mss c2 else c2).sock := by
    split_ifs
    · exact bufInv_tcpAcked _ _ h2
    · exact h2
  generalize (if ev.acked then tcpAcked ev.mss c2 else c2) = c3 at he h3
  cases hl : (if ev.newdata then newdataLoop fuel script ev.data c3 false else some c3) with
  | none => rw [hl] at he; cases he
  | some c4 =>
    rw [hl] at he
    have h4 : BufInv c4.sock := by
      split_ifs at hl
      · exact bufInv_newdataLoop fuel script ev.data c3 false c4 hs h3 hl
      · injection hl with hl
        rw [← hl]; exact h3
    simp only [Option.some.injEq] at he
    rw [← he]
    have h5 : BufInv (if ev.rexmit then
        { c4 with sent := c4.sent ++ [(c4.sock.buf, c4.sock.len)] } else c4).sock := by
      split_ifs <;> exact h4
    generalize (if ev.rexmit then
        { c4 with sent := c4.sent ++ [(c4.sock.buf, c4.sock.len)] } else c4) = c5 at h5 ⊢
    have h6 : BufInv (if ev.closed then netAppcallClose c5 .PEER_CLOSED else c5).sock := by
      split_ifs
      · exact bufInv_netAppcallClose _ _ (by simp [holdsBuf])
      · exact h5
    generalize (if ev.closed then netAppcallClose c5 .PEER_CLOSED else c5) = c6 at h6 ⊢
    split_ifs
    · exact bufInv_tcpPoll _ h6
    · exact h6

theorem bufInv_waitReaderUdp (script : List AppTurn) :
    ∀ (c : Cx) (t : Bool), (∀ x ∈ script, x.hasBuf = true) → BufInv c.sock →
      BufInv (waitReaderUdp script c t).1.sock := by
  induction script with
  | nil =>
    intro c t _ h
    rw [waitReaderUdp]
    split_ifs <;> exact h
  | cons a rest ih =>
    intro c t hs h
    rw [waitReaderUdp]
    split_ifs
    · exact ih _ _ (fun x hx => hs x (by simp [hx])) (bufInv_appTurn a c (hs a (by simp)) h)
    · exact h

theorem bufInv_netUdpAppcallMutex (newdata poll : Bool) (data : List Nat)
    (script : List AppTurn) (c : Cx) (hs : ∀ x ∈ script, x.hasBuf = true) (h : BufInv c.sock) :
    BufInv (netUdpAppcallMutex newdata poll data script c).sock := by
  have hw := bufInv_waitReaderUdp script c false hs h
  unfold netUdpAppcallMutex
  simp only
  split_ifs
  all_goals first
    | exact hw
    | exact h
    | exact bufInv_of_not_holds _ (by simp [holdsBuf, netAppcallClose])

/-- C8: in every state of a socket record that is reachable from netSockAlloc
through bind, listen, connect, accept, read, read_line, write, close and the
TCP and UDP callbacks, with every read and write passing a buffer that is not
null, buf is not null whenever the state is READING, READING_LINE or WRITING. -/
theorem C8_buf_invariant (s : NetSock) (h : Reach s) :
    s.state = .READING ∨ s.state = .READING_LINE ∨ s.state = .WRITING → s.buf ≠ none := by
  have key : BufInv s := by
    induction h with
    | alloc w st file hst hf =>
      have he : netSockAlloc w st = (some file, (netSockAlloc w st).2) := by
        rw [← hf]
      rw [netSockAlloc_eq st w _ file he]
      apply bufInv_of_not_holds
      show ¬ holdsBuf ((w.socks.set file _).getD file nullSock).state
      by_cases hl : file < w.socks.length
      · rw [World.sockAt_set_eq _ _ _ hl]
        rcases hst with e | e | e <;> simp [holdsBuf, e]
      · have h1 : (w.socks.set file
            { w.sockAt file with state := st, mutex := true, sockChange := true,
                                 uipChange := true, timeout := none, buf := none,
                                 len := 0, max := 0 })[file]? = none :=
          List.getElem?_eq_none (by rw [List.length_set]; exact not_lt.mp hl)
        rw [List.getD_eq_getElem?_getD, h1]
        simp [holdsBuf, nullSock]
    | table w w1 file _ hstep ih =>
      rcases tableStep_quiet w w1 hstep file with e | e
      · show BufInv (w1.socks.getD file nullSock)
        rw [e]
        exact ih
      · exact bufInv_of_not_holds _ e
    | readEnter c st p max c1 _ _ he _ =>
      unfold sockReadEnter at he
      split_ifs at he
      injection he with he
      rw [← he]
      intro _
      simp
    | readFinish c st timedOut r c1 _ he ih =>
      unfold sockReadFinish at he
      split_ifs at he
      all_goals
        injection he with _ he
        rw [← he]
        first
          | exact ih
          | exact bufInv_of_not_holds _ (by simp [holdsBuf])
    | writeEnter c p len c1 _ he _ =>
      unfold sockWriteEnter at he
      split_ifs at he
      injection he with he
      rw [← he]
      intro _
      simp
    | writeFinish c len r c1 _ he ih =>
      unfold sockWriteFinish at he
      split_ifs at he
      · injection he with _ he
        rw [← he]; exact ih
      · injection he with _ he
        rw [← he]; exact ih
      · injection he with _ he
        rw [← he]
        exact bufInv_of_not_holds _ (by simp [holdsBuf])
    | tcp c fuel ev script c1 _ hs he ih =>
      exact bufInv_netTcpAppcallMutex fuel ev script c c1 hs ih he
    | udp c newdata poll data script _ hs ih =>
      exact bufInv_netUdpAppcallMutex newdata poll data script c hs ih
  exact key

/-- C8 at a record allocated in BUSY on which a read of capacity 4 has parked:
it is reachable, in READING, and its buffer is the caller's. -/
theorem C8_buf_invariant_witness :
    ∃ s : NetSock, Reach s ∧ s.state = .READING ∧ s.buf ≠ none := by
  have h0 : Reach ((netSockAlloc (emptyWorld 2 4) .BUSY).2.sockAt 0) :=
    Reach.alloc _ _ _ (Or.inr (Or.inr rfl)) rfl
  have h1 := Reach.readEnter
    { busyCx with sock := (netSockAlloc (emptyWorld 2 4) .BUSY).2.sockAt 0 } .READING
    ⟨[0, 0, 0, 0], 0⟩ 4 _ h0 (Or.inl rfl) rfl
  exact ⟨_, h1, rfl, C8_buf_invariant _ h1 (Or.inl rfl)⟩

/-- A record allocated in BUSY on which a read of capacity 4 has been served
one byte and has returned is reachable, is in BUSY, and its buf still points
to the caller's buffer: buf is not null outside READING, READING_LINE and
WRITING. -/
theorem C8_busy_with_buffer_counterexample :
    ∃ s : NetSock, Reach s ∧ s.state = .BUSY ∧ s.buf = some ⟨[120, 0, 0, 0], 0⟩ := by
  have h0 : Reach ((netSockAlloc (emptyWorld 2 4) .BUSY).2.sockAt 0) :=
    Reach.alloc _ _ _ (Or.inr (Or.inr rfl)) rfl
  have h1 := Reach.readEnter
    { busyCx with sock := (netSockAlloc (emptyWorld 2 4) .BUSY).2.sockAt 0 } .READING
    ⟨[0, 0, 0, 0], 0⟩ 4 _ h0 (Or.inl rfl) rfl
  have h2 := Reach.tcp _ 1 (newdataEvent [120] 1460) [] _ h1 (fun _ hx => by simp at hx) rfl
  have h3 := Reach.readFinish _ .READING false _ _ h2 rfl
  exact ⟨_, h3, rfl, rfl⟩

end PicoNet
